import Mathlib

/-!
# Verification of the HEA graph-coloring engine

Shallow embedding of `src/services/graphAlgorithms.ts`: the conflict
evaluator, DSATUR greedy colorer, TabuCol refiner, GPX crossover and the
HEA population step, together with proofs and refutations of the stated
specification properties.

Conventions of the embedding:
* A JavaScript object used as a coloring is an association list
  `List (Nat × Nat)` (key = vertex id, value = color).  Reading a missing
  key yields `none` (JavaScript `undefined`); `colorOf` returns
  `Option Nat` so that `undefined === undefined` comparisons are modelled
  faithfully.  JavaScript iterates integer-keyed objects in ascending
  numeric order; every coloring built by this program inserts keys in
  ascending vertex order, which the list order mirrors.
* `Math.random()` is modelled by an explicit stream of naturals threaded
  through every randomized operation; `Math.floor(Math.random() * n)`
  becomes `x % n` of the next stream element, so quantifying over all
  streams quantifies over exactly the outcomes the code can produce.
* JavaScript numbers holding conflict totals and deltas are `Int`
  (they start from `-1` / may be decremented); iteration counters and
  colors are `Nat`.
* A JavaScript `throw`/`TypeError` (e.g. `reduce` of an empty array) is
  modelled by an `Option` result being `none`.
-/

/-- Explicit random source: a stream of raw naturals and a position. -/
structure RNG where
  stream : Nat → Nat
  pos : Nat

/-- Draw the next raw value from the stream. -/
def RNG.next (g : RNG) : Nat × RNG :=
  (g.stream g.pos, ⟨g.stream, g.pos + 1⟩)

/-- `Math.floor(Math.random() * n)`: a value in `[0, n)` (and `0` when `n = 0`). -/
def randBelow (n : Nat) (g : RNG) : Nat × RNG :=
  let (x, g') := g.next
  (if n = 0 then 0 else x % n, g')

/-- `Math.random() < 0.5`: a fair coin. -/
def randCoin (g : RNG) : Bool × RNG :=
  let (x, g') := g.next
  (x % 2 == 0, g')

/-- A coloring: JavaScript object from vertex id to color. -/
abbrev Coloring := List (Nat × Nat)

/-- `coloring[v]` — `none` models JavaScript `undefined`. -/
def colorOf (S : Coloring) (v : Nat) : Option Nat :=
  S.lookup v

/-- `coloring[v] = c`: update the entry if the key exists, otherwise append it. -/
def setColor (S : Coloring) (v c : Nat) : Coloring :=
  if (S.lookup v).isSome then
    S.map (fun p => if p.1 = v then (v, c) else p)
  else
    S ++ [(v, c)]

/-- The graph record: vertex list, edge list and adjacency map
(the adjacency `Map` is a list of entries in insertion order). -/
structure GraphData where
  nodes : List Nat
  links : List (Nat × Nat)
  adj : List (Nat × List Nat)

/-- `adjacency.get(v)` with the `?? []` reading used throughout the source. -/
def adjOf (adj : List (Nat × List Nat)) (v : Nat) : List Nat :=
  (adj.lookup v).getD []

/-- One term of the conflict scan:
`coloring[node] === coloring[neighbor] && coloring[node] !== 0`. -/
def conflictFlag (S : Coloring) (u v : Nat) : Nat :=
  if colorOf S u = colorOf S v ∧ colorOf S u ≠ some 0 then 1 else 0

/-- The doubled conflict count: iterate every adjacency entry and every
neighbor, incrementing on a same-color pair. -/
def rawConflictSum (S : Coloring) (adj : List (Nat × List Nat)) : Nat :=
  (adj.map (fun e => (e.2.map (fun v => conflictFlag S e.1 v)).sum)).sum

/-- `countConflicts(coloring, adjacency)`: the doubled scan divided by two
(each edge of a symmetric adjacency is visited from both endpoints). -/
def countConflicts (S : Coloring) (adj : List (Nat × List Nat)) : Nat :=
  rawConflictSum S adj / 2

/-- The key set of the adjacency map (a JavaScript `Map` has unique keys). -/
def adjKeys (adj : List (Nat × List Nat)) : List Nat :=
  adj.map Prod.fst

/-- Well-formedness of an adjacency map: unique keys (structural for a
JavaScript `Map`), symmetric neighbor multiplicities, and no self-loops. -/
structure AdjWF (adj : List (Nat × List Nat)) : Prop where
  keysNodup : (adjKeys adj).Nodup
  symm : ∀ u v, (adjOf adj u).count v = (adjOf adj v).count u
  noSelfLoop : ∀ u, u ∉ adjOf adj u

/-- The keys of the adjacency map, as a finite set. -/
def keysFinset (adj : List (Nat × List Nat)) : Finset Nat :=
  (adjKeys adj).toFinset

/-- Modelled from the spec: "the number of edges whose two endpoints hold
the same non-zero color" — the brute-force specification the evaluator is
compared against. -/
def sameNonzeroColor (S : Coloring) (u v : Nat) : Prop :=
  ∃ c, c ≠ 0 ∧ colorOf S u = some c ∧ colorOf S v = some c

instance (S : Coloring) (u v : Nat) : Decidable (sameNonzeroColor S u v) :=
  decidable_of_iff
    (colorOf S u = colorOf S v ∧ colorOf S u ≠ some 0 ∧ (colorOf S u).isSome)
    (by
      constructor
      · rintro ⟨h1, h2, h3⟩
        obtain ⟨c, hc⟩ := Option.isSome_iff_exists.mp h3
        refine ⟨c, ?_, hc, h1.symm.trans hc⟩
        intro hc0
        rw [hc0] at hc
        exact h2 hc
      · rintro ⟨c, hc0, hcu, hcv⟩
        refine ⟨hcu.trans hcv.symm, ?_, by rw [hcu]; rfl⟩
        rw [hcu]
        intro hh
        exact hc0 (Option.some_injective _ hh))

/-- Modelled from the spec: the brute-force conflict count — the number of
(unordered) adjacent pairs whose endpoints hold the same non-zero color. -/
def conflictEdgeCount (S : Coloring) (adj : List (Nat × List Nat)) : Nat :=
  ((keysFinset adj ×ˢ keysFinset adj).filter
    (fun p => p.1 < p.2 ∧ p.2 ∈ adjOf adj p.1 ∧ sameNonzeroColor S p.1 p.2)).card

-- ### DSATUR (`runDSATUR`)

/-- Static degree: `adjacency.get(n.id)?.length || 0`. -/
def degreeOf (g : GraphData) (v : Nat) : Nat :=
  (adjOf g.adj v).length

/-- The `Set` of neighbor color values with `coloring[neighbor] !== 0`
(JavaScript `undefined` is a possible member, hence `Option Nat`). -/
def usedNeighborColors (g : GraphData) (S : Coloring) (v : Nat) : List (Option Nat) :=
  (((adjOf g.adj v).map (colorOf S)).filter (fun c => c != some 0)).dedup

/-- `getSaturation`: the size of that set. -/
def saturationOf (g : GraphData) (S : Coloring) (v : Nat) : Nat :=
  (usedNeighborColors g S v).length

/-- The JavaScript sort comparator (saturation descending, then degree
descending), as the `le` relation of a stable merge sort. -/
def dsaturLe (g : GraphData) (S : Coloring) (a b : Nat) : Bool :=
  if saturationOf g S a = saturationOf g S b then
    decide (degreeOf g b ≤ degreeOf g a)
  else
    decide (saturationOf g S b < saturationOf g S a)

/-- `nodes.filter(n => coloring[n.id] === 0)`. -/
def uncoloredNodes (g : GraphData) (S : Coloring) : List Nat :=
  g.nodes.filter (fun v => colorOf S v == some 0)

/-- The `while (usedColors.has(chosenColor)) chosenColor++` search, with
enough fuel for the pigeonhole bound. -/
def lowestFreeAux (used : List (Option Nat)) : Nat → Nat → Nat
  | 0, c => c
  | fuel + 1, c => if (some c) ∈ used then lowestFreeAux used fuel (c + 1) else c

/-- The smallest color `≥ 1` not used by a neighbor. -/
def lowestFree (used : List (Option Nat)) : Nat :=
  lowestFreeAux used (used.length + 1) 1

/-- The `chosenColor > k` fallback: the color in `1..k` held by the fewest
neighbors, ties broken by the smallest color index. -/
def minConflictColor (g : GraphData) (S : Coloring) (v k : Nat) : Nat :=
  ((List.range' 1 k).foldl (fun acc c =>
    let cnt := ((adjOf g.adj v).filter (fun w => colorOf S w == some c)).length
    match acc.1 with
    | none => ((some cnt : Option Nat), c)
    | some m => if cnt < m then (some cnt, c) else acc) ((none : Option Nat), 1)).2

/-- The color DSATUR assigns to the chosen vertex. -/
def dsaturChooseColor (g : GraphData) (S : Coloring) (v k : Nat) : Nat :=
  let free := lowestFree (usedNeighborColors g S v)
  if free > k then minConflictColor g S v k else free

-- ### Termination support for `dsaturLoop`

-- `dsaturLoop` below recurses on the number of uncolored vertices, so its
-- well-founded recursion needs the `setColor` evaluation lemmas and the
-- strict-decrease argument before the definition itself.

section BasicLemmas

theorem lookup_cons_eq {β : Type} (a k : Nat) (b : β) (rest : List (Nat × β)) :
    List.lookup a ((k, b) :: rest) = if a = k then some b else List.lookup a rest := by
  by_cases h : a = k
  · subst h
    simp [List.lookup]
  · simp [List.lookup, beq_false_of_ne h, h]

theorem lookup_map_update (S : Coloring) (u c : Nat)
    (h : (S.lookup u).isSome) :
    (S.map (fun p => if p.1 = u then (u, c) else p)).lookup u = some c := by
  induction S with
  | nil => simp [List.lookup] at h
  | cons p rest ih =>
    obtain ⟨k, b⟩ := p
    by_cases hk : k = u
    · subst hk
      simp [lookup_cons_eq]
    · have h' : (rest.lookup u).isSome := by
        rw [lookup_cons_eq] at h
        simpa [Ne.symm hk] using h
      have hpair : (if (k, b).1 = u then (u, c) else (k, b)) = (k, b) := by simp [hk]
      rw [List.map_cons, hpair, lookup_cons_eq, if_neg (Ne.symm hk)]
      exact ih h'

theorem lookup_map_update_ne (S : Coloring) (u c v : Nat) (hvu : v ≠ u) :
    (S.map (fun p => if p.1 = u then (u, c) else p)).lookup v = S.lookup v := by
  induction S with
  | nil => simp
  | cons p rest ih =>
    obtain ⟨k, b⟩ := p
    by_cases hk : k = u
    · subst hk
      have hpair : (if (k, b).1 = k then (k, c) else (k, b)) = (k, c) := by simp
      rw [List.map_cons, hpair, lookup_cons_eq, lookup_cons_eq, if_neg hvu, if_neg hvu]
      exact ih
    · have hpair : (if (k, b).1 = u then (u, c) else (k, b)) = (k, b) := by simp [hk]
      rw [List.map_cons, hpair, lookup_cons_eq, lookup_cons_eq]
      by_cases hkv : v = k
      · simp [hkv]
      · rw [if_neg hkv, if_neg hkv]
        exact ih

theorem lookup_append_single (S : Coloring) (u c : Nat)
    (h : S.lookup u = none) :
    (S ++ [(u, c)]).lookup u = some c := by
  induction S with
  | nil => simp [lookup_cons_eq]
  | cons p rest ih =>
    obtain ⟨k, b⟩ := p
    rw [lookup_cons_eq] at h
    by_cases hk : u = k
    · simp [hk] at h
    · rw [if_neg hk] at h
      rw [List.cons_append, lookup_cons_eq, if_neg hk]
      exact ih h

theorem lookup_append_single_ne (S : Coloring) (u c v : Nat) (hvu : v ≠ u) :
    (S ++ [(u, c)]).lookup v = S.lookup v := by
  induction S with
  | nil => simp [lookup_cons_eq, hvu]
  | cons p rest ih =>
    obtain ⟨k, b⟩ := p
    rw [List.cons_append, lookup_cons_eq, lookup_cons_eq]
    by_cases hkv : v = k
    · simp [hkv]
    · rw [if_neg hkv, if_neg hkv]
      exact ih

theorem lookup_setColor_self (S : Coloring) (u c : Nat) :
    (setColor S u c).lookup u = some c := by
  unfold setColor
  by_cases h : (S.lookup u).isSome
  · rw [if_pos h]
    exact lookup_map_update S u c h
  · rw [if_neg h]
    exact lookup_append_single S u c (Option.not_isSome_iff_eq_none.mp h)

theorem lookup_setColor_ne (S : Coloring) (u c v : Nat) (hvu : v ≠ u) :
    (setColor S u c).lookup v = S.lookup v := by
  unfold setColor
  by_cases h : (S.lookup u).isSome
  · rw [if_pos h]
    exact lookup_map_update_ne S u c v hvu
  · rw [if_neg h]
    exact lookup_append_single_ne S u c v hvu

theorem colorOf_setColor_self (S : Coloring) (u c : Nat) :
    colorOf (setColor S u c) u = some c :=
  lookup_setColor_self S u c

theorem colorOf_setColor_ne (S : Coloring) (u c v : Nat) (hvu : v ≠ u) :
    colorOf (setColor S u c) v = colorOf S v :=
  lookup_setColor_ne S u c v hvu

end BasicLemmas

theorem lowestFreeAux_ge (used : List (Option Nat)) :
    ∀ fuel c, c ≤ lowestFreeAux used fuel c := by
  intro fuel
  induction fuel with
  | zero => intro c; exact Nat.le_refl c
  | succ n ih =>
    intro c
    unfold lowestFreeAux
    by_cases h : (some c) ∈ used
    · rw [if_pos h]
      exact Nat.le_trans (Nat.le_succ c) (ih (c + 1))
    · rw [if_neg h]

theorem lowestFree_pos (used : List (Option Nat)) : 1 ≤ lowestFree used :=
  lowestFreeAux_ge used _ 1

theorem minConflictColor_pos (g : GraphData) (S : Coloring) (v k : Nat) :
    1 ≤ minConflictColor g S v k := by
  unfold minConflictColor
  have h : ∀ (l : List Nat) (acc : Option Nat × Nat), 1 ≤ acc.2 → (∀ c ∈ l, 1 ≤ c) →
      1 ≤ (l.foldl (fun acc c =>
        let cnt := ((adjOf g.adj v).filter (fun w => colorOf S w == some c)).length
        match acc.1 with
        | none => ((some cnt : Option Nat), c)
        | some m => if cnt < m then (some cnt, c) else acc) acc).2 := by
    intro l
    induction l with
    | nil => intro acc ha _; exact ha
    | cons c t ih =>
      intro acc ha hl
      rw [List.foldl_cons]
      apply ih
      · cases hacc : acc.1 with
        | none => exact hl c (List.mem_cons_self c t)
        | some m =>
          simp only [hacc]
          by_cases hc : ((adjOf g.adj v).filter (fun w => colorOf S w == some c)).length < m
          · rw [if_pos hc]
            exact hl c (List.mem_cons_self c t)
          · rw [if_neg hc]
            exact ha
      · intro x hx
        exact hl x (List.mem_cons_of_mem c hx)
  apply h
  · exact Nat.le_refl 1
  · intro c hc
    exact (List.mem_range'_1.mp hc).1

theorem dsaturChooseColor_pos (g : GraphData) (S : Coloring) (v k : Nat) :
    1 ≤ dsaturChooseColor g S v k := by
  unfold dsaturChooseColor
  by_cases h : lowestFree (usedNeighborColors g S v) > k
  · rw [if_pos h]
    exact minConflictColor_pos g S v k
  · rw [if_neg h]
    exact lowestFree_pos _

theorem countP_lt_of_strict {α : Type} (l : List α) (p q : α → Bool)
    (himp : ∀ x ∈ l, q x = true → p x = true) :
    ∀ x₀, x₀ ∈ l → p x₀ = true → q x₀ = false →
    l.countP q < l.countP p := by
  induction l with
  | nil => intro x₀ hx; cases hx
  | cons a t ih =>
    intro x₀ hx hp hq
    have hle : t.countP q ≤ t.countP p :=
      List.countP_mono_left (fun x hxt hqx => himp x (List.mem_cons_of_mem a hxt) hqx)
    rw [List.countP_cons, List.countP_cons]
    rcases List.mem_cons.mp hx with h | h
    · have hpa : p a = true := h ▸ hp
      have hqa : q a = false := h ▸ hq
      rw [hpa, hqa]
      have h1 : (if (true = true) then 1 else 0) = 1 := if_pos rfl
      have h2 : (if (false = true) then 1 else 0) = 0 := if_neg (by decide)
      rw [h1, h2]
      omega
    · have hlt := ih (fun x hxt hqx => himp x (List.mem_cons_of_mem a hxt) hqx) x₀ h hp hq
      have hca : (if q a = true then 1 else 0) ≤ (if p a = true then 1 else 0) := by
        by_cases hqa : q a = true
        · rw [if_pos hqa, if_pos (himp a (List.mem_cons_self a t) hqa)]
        · rw [if_neg hqa]
          exact Nat.zero_le _
      omega

theorem uncolored_decrease (g : GraphData) (S : Coloring) (chosen col : Nat)
    (hch : chosen ∈ g.nodes) (hc0 : colorOf S chosen = some 0) (hcol : col ≠ 0) :
    (uncoloredNodes g (setColor S chosen col)).length
      < (uncoloredNodes g S).length := by
  unfold uncoloredNodes
  rw [← List.countP_eq_length_filter, ← List.countP_eq_length_filter]
  refine countP_lt_of_strict g.nodes _ _ ?_ chosen hch ?_ ?_
  · intro x hx hqx
    by_cases hxc : x = chosen
    · subst hxc
      rw [colorOf_setColor_self] at hqx
      simp at hqx
      exact absurd hqx hcol
    · rw [colorOf_setColor_ne S chosen col x hxc] at hqx
      exact hqx
  · simp [hc0]
  · rw [colorOf_setColor_self]
    simp [hcol]

/-- The DSATUR `while` loop: color the most saturated uncolored vertex
each round until none remain. -/
def dsaturLoop (g : GraphData) (k : Nat) (S : Coloring) : Coloring :=
  if hlen : (uncoloredNodes g S).length = 0 then S
  else
    match hs : (uncoloredNodes g S).mergeSort (dsaturLe g S) with
    | [] => S
    | chosen :: _ =>
      dsaturLoop g k (setColor S chosen (dsaturChooseColor g S chosen k))
termination_by (uncoloredNodes g S).length
decreasing_by
  have hmem : chosen ∈ (uncoloredNodes g S).mergeSort (dsaturLe g S) := by
    rw [hs]
    exact List.mem_cons_self _ _
  rw [List.mem_mergeSort] at hmem
  have hch : chosen ∈ g.nodes := List.mem_of_mem_filter hmem
  have hc0 : colorOf S chosen = some 0 := by
    have := List.of_mem_filter hmem
    exact beq_iff_eq.mp this
  exact uncolored_decrease g S chosen _ hch hc0
    (Nat.one_le_iff_ne_zero.mp (dsaturChooseColor_pos g S chosen k))

/-- `runDSATUR(graph, k)` — `none` models the `TypeError` thrown by
`nodes.reduce` on an empty vertex list. -/
def runDSATUR (g : GraphData) (k : Nat) : Option Coloring :=
  match g.nodes with
  | [] => none
  | h :: t =>
    let S0 : Coloring := g.nodes.map (fun v => (v, 0))
    let maxDegreeNode := t.foldl (fun a b => if degreeOf g a > degreeOf g b then a else b) h
    some (dsaturLoop g k (setColor S0 maxDegreeNode 1))


-- ### TabuCol (`runTabuCol`)

/-- A candidate 1-move as tracked by the neighborhood scan
(`bestMove = none` models the `{node: -1, ..., delta: Infinity}` sentinel). -/
structure Move where
  node : Nat
  oldColor : Option Nat
  newColor : Nat
  delta : Int
deriving DecidableEq

/-- The eligibility test of the scan:
`!isTabu || isAspiration`, with `isTabu = tabuMatrix[u][color] >= iter`
and `isAspiration = currentConflicts + delta < bestConflicts`. -/
def moveAllowed (tabu : Nat → Option Nat → Nat) (iter : Nat) (u color : Nat)
    (curConf delta bestConf : Int) : Bool :=
  !(decide (tabu u (some color) ≥ iter)) || decide (curConf + delta < bestConf)

/-- Modelled from the spec: "a candidate is eligible if it is not tabu
(current iteration < forbidden-until for that (vertex,color)) OR it
satisfies the aspiration criterion". -/
def specEligible (tabu : Nat → Option Nat → Nat) (iter : Nat) (u color : Nat)
    (curConf delta bestConf : Int) : Prop :=
  ¬ (iter < tabu u (some color)) ∨ curConf + delta < bestConf

/-- One candidate `(u, color)` of the inner scan loop: compute the delta,
test eligibility, and displace the best move (ties displaced with a coin). -/
def considerMove (tabu : Nat → Option Nat → Nat) (iter : Nat)
    (curConf bestConf : Int) (S : Coloring) (u : Nat) (oldC : Option Nat)
    (curN : Nat) (neighbors : List Nat) (color : Nat)
    (acc : Option Move × RNG) : Option Move × RNG :=
  if some color = oldC then acc
  else
    let newN := (neighbors.filter (fun v => colorOf S v == some color)).length
    let delta : Int := (newN : Int) - (curN : Int)
    if moveAllowed tabu iter u color curConf delta bestConf then
      match acc with
      | (none, g) => (some ⟨u, oldC, color, delta⟩, g)
      | (some bm, g) =>
        if delta < bm.delta then (some ⟨u, oldC, color, delta⟩, g)
        else if delta = bm.delta then
          let (flip, g') := randCoin g
          ((if flip then some ⟨u, oldC, color, delta⟩ else some bm), g')
        else (some bm, g)
    else acc

/-- The scan over all candidate colors of one conflicted vertex. -/
def scanNodeMoves (gr : GraphData) (k : Nat) (tabu : Nat → Option Nat → Nat)
    (iter : Nat) (curConf bestConf : Int) (S : Coloring)
    (acc : Option Move × RNG) (u : Nat) : Option Move × RNG :=
  let neighbors := adjOf gr.adj u
  let oldC := colorOf S u
  let curN := (neighbors.filter (fun v => colorOf S v == oldC)).length
  (List.range' 1 k).foldl
    (fun a color => considerMove tabu iter curConf bestConf S u oldC curN neighbors color a)
    acc

/-- `nodes.filter(n => neighbors.some(neigh => currentS[neigh] === currentS[n.id]))`. -/
def conflictedNodesOf (gr : GraphData) (S : Coloring) : List Nat :=
  gr.nodes.filter (fun u => (adjOf gr.adj u).any (fun v => colorOf S v == colorOf S u))

/-- The full 1-move neighborhood scan over the conflicted vertices. -/
def scanMoves (gr : GraphData) (k : Nat) (tabu : Nat → Option Nat → Nat)
    (iter : Nat) (curConf bestConf : Int) (S : Coloring)
    (conflicted : List Nat) (g : RNG) : Option Move × RNG :=
  conflicted.foldl (scanNodeMoves gr k tabu iter curConf bestConf S) (none, g)

/-- The mutable state of one `runTabuCol` invocation. -/
structure TabuState where
  currentS : Coloring
  bestS : Coloring
  currentConflicts : Int
  bestConflicts : Int
  tabu : Nat → Option Nat → Nat
  gen : RNG

/-- One iteration of the TabuCol `for` loop.  The two early `break`s are
modelled by returning the state unchanged (the state is then a fixed point
of every later iteration, which is observationally the same as breaking). -/
def tabuIter (gr : GraphData) (k tenure : Nat) (iter : Nat) (st : TabuState) : TabuState :=
  if st.bestConflicts = 0 then st
  else if (conflictedNodesOf gr st.currentS).isEmpty then st
  else
    match scanMoves gr k st.tabu iter st.currentConflicts st.bestConflicts
      st.currentS (conflictedNodesOf gr st.currentS) st.gen with
    | (some m, g1) =>
      let S' := setColor st.currentS m.node m.newColor
      let cur' := st.currentConflicts + m.delta
      let jg := randBelow 2 g1
      let tabu' := fun v c =>
        if v = m.node ∧ c = m.oldColor then iter + tenure + jg.1 else st.tabu v c
      if cur' < st.bestConflicts then
        ⟨S', S', cur', cur', tabu', jg.2⟩
      else
        ⟨S', st.bestS, cur', st.bestConflicts, tabu', jg.2⟩
    | (none, g1) =>
      let rig := randBelow (conflictedNodesOf gr st.currentS).length g1
      let u := (conflictedNodesOf gr st.currentS).getD rig.1 0
      let rcg := randBelow k rig.2
      let randColor := rcg.1 + 1
      if (some randColor : Option Nat) ≠ colorOf st.currentS u then
        ⟨setColor st.currentS u randColor, st.bestS,
         (countConflicts (setColor st.currentS u randColor) gr.adj : Int),
         st.bestConflicts, st.tabu, rcg.2⟩
      else
        ⟨st.currentS, st.bestS, st.currentConflicts, st.bestConflicts, st.tabu, rcg.2⟩

/-- `for (let iter = 1; iter <= maxIter; iter++)`. -/
def tabuLoop (gr : GraphData) (k tenure : Nat) : Nat → Nat → TabuState → TabuState
  | 0, _, st => st
  | n + 1, iter, st => tabuLoop gr k tenure n (iter + 1) (tabuIter gr k tenure iter st)

/-- The seed fix-up: every stored color strictly greater than `k` is
replaced by a random color in `1..k`; other values (including the `0`
sentinel) are kept. -/
def fixColors (k : Nat) : Coloring → RNG → Coloring × RNG
  | [], g => ([], g)
  | (v, c) :: rest, g =>
    if c > k then
      let (r, g1) := randBelow k g
      let (rest', g2) := fixColors k rest g1
      ((v, r + 1) :: rest', g2)
    else
      let (rest', g1) := fixColors k rest g
      ((v, c) :: rest', g1)

/-- `runTabuCol(graph, k, initialColoring, maxIter, tabuTenure)`. -/
def runTabuCol (gr : GraphData) (k : Nat) (initialColoring : Coloring)
    (maxIter tenure : Nat) (g0 : RNG) : (Coloring × Int) × RNG :=
  let (currentS, g1) := fixColors k initialColoring g0
  let currentConflicts : Int := (countConflicts currentS gr.adj : Int)
  let st0 : TabuState :=
    ⟨currentS, currentS, currentConflicts, currentConflicts, fun _ _ => 0, g1⟩
  let stF := tabuLoop gr k tenure maxIter 1 st0
  ((stF.bestS, stF.bestConflicts), stF.gen)

-- ### GPX crossover and the HEA step

/-- `getClasses(coloring, k)`: the `Map` from each color `1..k` to the
set of vertices holding it (iteration in color order, as constructed). -/
def getClasses (S : Coloring) (k : Nat) : List (Nat × List Nat) :=
  (List.range' 1 k).map (fun c => (c, (S.filter (fun p => p.2 == c)).map Prod.fst))

/-- The per-slot class choice: `bestColor/bestCount` start at `-1` and a
class displaces them only with a strictly larger unassigned-intersection
count, so the first (lowest-color) maximum wins. -/
def gpxPickClass (classes : List (Nat × List Nat)) (unassigned : List Nat) : Int × Int :=
  classes.foldl (fun acc e =>
    let count : Int := ((e.2.filter (fun nid => unassigned.contains nid)).length : Int)
    if count > acc.2 then ((e.1 : Int), count) else acc) ((-1 : Int), (-1 : Int))

/-- One target color slot: assign color `c` to the unassigned members of
the picked class and remove them from the unassigned set. -/
def gpxAssignSlot (classes : List (Nat × List Nat)) (c : Nat)
    (child : Coloring) (unassigned : List Nat) : Coloring × List Nat :=
  if (gpxPickClass classes unassigned).1 ≠ -1 then
    ((((classes.lookup (gpxPickClass classes unassigned).1.toNat).getD []).filter
        (fun nid => unassigned.contains nid)).foldl
      (fun ch nid => setColor ch nid c) child,
     unassigned.filter (fun nid =>
       !(((classes.lookup (gpxPickClass classes unassigned).1.toNat).getD []).contains nid)))
  else (child, unassigned)

/-- The slot loop `for c = 1..k`, alternating the source parent
(`currentParent` starts at 1 and toggles every slot). -/
def gpxSlotsAux (classes1 classes2 : List (Nat × List Nat)) :
    List Nat → Nat → Coloring → List Nat → Coloring × List Nat
  | [], _, child, unassigned => (child, unassigned)
  | c :: rest, currentParent, child, unassigned =>
    gpxSlotsAux classes1 classes2 rest (if currentParent = 1 then 2 else 1)
      (gpxAssignSlot (if currentParent = 1 then classes1 else classes2) c child unassigned).1
      (gpxAssignSlot (if currentParent = 1 then classes1 else classes2) c child unassigned).2

/-- `gpxCrossover(p1, p2, k, graph)`: the child starts all-0, the `k` slots
are filled alternating parents, and every remaining unassigned vertex gets
a uniform random color in `1..k`. -/
def gpxCrossover (p1 p2 : Coloring) (k : Nat) (g : GraphData) (g0 : RNG) :
    Coloring × RNG :=
  (gpxSlotsAux (getClasses p1 k) (getClasses p2 k)
      (List.range' 1 k) 1 (g.nodes.map (fun v => (v, 0))) g.nodes).2.foldl
    (fun (acc : Coloring × RNG) nid =>
      (setColor acc.1 nid ((randBelow k acc.2).1 + 1), (randBelow k acc.2).2))
    ((gpxSlotsAux (getClasses p1 k) (getClasses p2 k)
      (List.range' 1 k) 1 (g.nodes.map (fun v => (v, 0))) g.nodes).1, g0)

/-- `AlgorithmParams` (only the fields the algorithms read; `alpha` is
accepted and unused, as in the source). -/
structure AlgorithmParams where
  k : Nat
  popSize : Nat
  maxIterHEA : Nat
  alpha : Nat
  tabuTenure : Nat
  maxIterTabu : Nat

/-- A population member: a coloring together with its stored conflict count. -/
structure Individual where
  coloring : Coloring
  conflicts : Int
deriving DecidableEq

/-- The tournament loop body (`bestFit` starts at `Infinity`, modelled by
`none`; `population[idx]` of an empty array would throw, handled by the
caller). -/
def tournamentAux (pop : List Individual) :
    Nat → Option Individual → RNG → Option Individual × RNG
  | 0, best, g => (best, g)
  | n + 1, best, g =>
    let (r, g1) := randBelow pop.length g
    let ind := pop.getD r ⟨[], 0⟩
    match best with
    | none => tournamentAux pop n (some ind) g1
    | some b =>
      tournamentAux pop n (if ind.conflicts < b.conflicts then some ind else some b) g1

/-- `tournament(size)`: pick the lowest-conflict individual of `size`
uniform draws; `none` models the `TypeError` on an empty population. -/
def tournament (pop : List Individual) (size : Nat) (g : RNG) :
    Option Individual × RNG :=
  if pop.isEmpty then (none, g) else tournamentAux pop size none g

/-- Parent selection, crossover and tabu refinement of one HEA step:
everything before the replacement decision. -/
def heaChild (pop : List Individual) (gr : GraphData) (params : AlgorithmParams)
    (g0 : RNG) : Option ((Coloring × Int) × RNG) :=
  let t1 := tournament pop 3 g0
  match t1.1 with
  | none => none
  | some p1 =>
    let t2 := tournament pop 3 t1.2
    match t2.1 with
    | none => none
    | some p2 =>
      let cg := gpxCrossover p1.coloring p2.coloring params.k gr t2.2
      some (runTabuCol gr params.k cg.1 params.maxIterTabu params.tabuTenure cg.2)

/-- The worst-individual scan: `(worstIdx, worstConf)` both start at `-1`
and are displaced only by a strictly larger conflict count. -/
def findWorst (pop : List Individual) : Int × Int :=
  pop.enum.foldl (fun acc p =>
    if p.2.conflicts > acc.2 then ((p.1 : Int), p.2.conflicts) else acc)
    ((-1 : Int), (-1 : Int))

/-- `newPopulation[worstIdx] = x` (an assignment at index `-1` creates a
stray object property and leaves the array elements unchanged). -/
def setIndividual (pop : List Individual) (i : Int) (x : Individual) :
    List Individual :=
  if 0 ≤ i then pop.set i.toNat x else pop

/-- The final best-of-population scan (`newPopulation[0]` of an empty
array would throw: `none`). -/
def findBest (pop : List Individual) : Option (Coloring × Int) :=
  match pop with
  | [] => none
  | i0 :: _ =>
    some (pop.foldl (fun acc ind =>
      if ind.conflicts < acc.2 then (ind.coloring, ind.conflicts) else acc)
      (i0.coloring, i0.conflicts))

/-- The tuple returned by `runHEAStep`. -/
structure HEAStepResult where
  newPopulation : List Individual
  best : Coloring
  bestConflicts : Int
  logs : List String

/-- `runHEAStep(population, graph, params)`. -/
def runHEAStep (pop : List Individual) (gr : GraphData) (params : AlgorithmParams)
    (g0 : RNG) : Option (HEAStepResult × RNG) :=
  match heaChild pop gr params g0 with
  | none => none
  | some chg =>
    let child := chg.1
    let g4 := chg.2
    let worst := findWorst pop
    let isDup := pop.any (fun ind => ind.conflicts == child.2)
    let repl :=
      if child.2 < worst.2 ∧ isDup = false then
        (setIndividual pop worst.1 ⟨child.1, child.2⟩,
         ["Child (Conf: " ++ toString child.2 ++ ") replaced Individual "
           ++ toString worst.1 ++ " (Conf: " ++ toString worst.2 ++ ")"])
      else
        (pop, ["Child (Conf: " ++ toString child.2 ++ ") discarded."])
    match findBest repl.1 with
    | none => none
    | some bb => some (⟨repl.1, bb.1, bb.2, repl.2⟩, g4)

/-- The `initPopulation` loop: `popSize` DSATUR seeds each refined by a
bounded TabuCol call (`none` propagates the DSATUR throw). -/
def initPopulationAux (gr : GraphData) (params : AlgorithmParams) :
    Nat → List Individual → RNG → Option (List Individual × RNG)
  | 0, acc, g => some (acc, g)
  | n + 1, acc, g =>
    match runDSATUR gr params.k with
    | none => none
    | some initC =>
      let ((ci, cc), g1) :=
        runTabuCol gr params.k initC params.maxIterTabu params.tabuTenure g
      initPopulationAux gr params n (acc ++ [⟨ci, cc⟩]) g1

/-- `initPopulation(graph, params)`. -/
def initPopulation (gr : GraphData) (params : AlgorithmParams) (g : RNG) :
    Option (List Individual × RNG) :=
  initPopulationAux gr params params.popSize [] g

-- ### Concrete instances used by refutations and witnesses

/-- The all-zero random stream. -/
def exRng : RNG := ⟨fun _ => 0, 0⟩

/-- A single isolated vertex. -/
def exGraph1 : GraphData := ⟨[1], [], [(1, [])]⟩

/-- Two disjoint edges `(1,2)` and `(3,4)`. -/
def exGraph4 : GraphData :=
  ⟨[1, 2, 3, 4], [(1, 2), (3, 4)], [(1, [2]), (2, [1]), (3, [4]), (4, [3])]⟩

/-- A seed for `exGraph4` that colors the edge `(1,2)` with a real conflict
and leaves `3, 4` at the uncolored sentinel `0`. -/
def exSeedBad : Coloring := [(1, 1), (2, 1), (3, 0), (4, 0)]

-- ### TabuCol scan and loop invariants

/-- What the neighborhood scan guarantees about any selected move: it
names a conflicted vertex, records that vertex's current color as the old
color, proposes a different color in `1..k`, and carries the exact delta
the code computed from the neighbor counts. -/
def MoveOK (gr : GraphData) (k : Nat) (S : Coloring) (conflicted : List Nat)
    (m : Move) : Prop :=
  m.node ∈ conflicted
  ∧ m.oldColor = colorOf S m.node
  ∧ m.newColor ∈ List.range' 1 k
  ∧ some m.newColor ≠ m.oldColor
  ∧ m.delta = (((adjOf gr.adj m.node).filter
        (fun v => colorOf S v == some m.newColor)).length : Int)
      - (((adjOf gr.adj m.node).filter
        (fun v => colorOf S v == colorOf S m.node)).length : Int)

/-- Well-formedness of a full graph record: the adjacency map is
well-formed and its keys are exactly the vertex list (as the graph
constructors guarantee). -/
structure GraphWF (gr : GraphData) : Prop where
  adjWF : AdjWF gr.adj
  keysEq : adjKeys gr.adj = gr.nodes

/-- The C5 invariant: every vertex currently holds a color in `1..k`, and
both running conflict totals agree with the evaluator on the colorings
they describe. -/
def TabuInv (gr : GraphData) (k : Nat) (st : TabuState) : Prop :=
  (∀ v ∈ gr.nodes, ∃ c, colorOf st.currentS v = some c ∧ 1 ≤ c ∧ c ≤ k)
  ∧ st.currentConflicts = (countConflicts st.currentS gr.adj : Int)
  ∧ st.bestConflicts = (countConflicts st.bestS gr.adj : Int)

/-- The C8 invariant: every entry of the current and best colorings holds
a color in `1..k`. -/
def TabuRangeInv (k : Nat) (st : TabuState) : Prop :=
  (∀ p ∈ st.currentS, 1 ≤ p.2 ∧ p.2 ≤ k) ∧ (∀ p ∈ st.bestS, 1 ≤ p.2 ∧ p.2 ≤ k)

-- ### GPX: spec-level chooser and the crossover refinement

/-- The unassigned-intersection count of the class holding color `c`. -/
def classUnassignedCount (classes : List (Nat × List Nat)) (unassigned : List Nat)
    (c : Nat) : Nat :=
  (((classes.lookup c).getD []).filter (fun nid => unassigned.contains nid)).length

/-- Modelled from the spec: "pick the class whose intersection with the
unassigned set is largest (ties broken by lowest color index in that
parent)" — the first listed color whose count is maximal. -/
def specPickColor (classes : List (Nat × List Nat)) (unassigned : List Nat) :
    Option Nat :=
  (classes.map Prod.fst).find? (fun c =>
    decide (∀ c' ∈ classes.map Prod.fst,
      classUnassignedCount classes unassigned c' ≤ classUnassignedCount classes unassigned c))

/-- Modelled from the spec: one target slot assigns color `c` to every
unassigned vertex of the chosen class and removes them. -/
def gpxSpecAssignSlot (classes : List (Nat × List Nat)) (c : Nat)
    (child : Coloring) (unassigned : List Nat) : Coloring × List Nat :=
  match specPickColor classes unassigned with
  | some bc =>
    ((((classes.lookup bc).getD []).filter (fun nid => unassigned.contains nid)).foldl
      (fun ch nid => setColor ch nid c) child,
     unassigned.filter (fun nid => !(((classes.lookup bc).getD []).contains nid)))
  | none => (child, unassigned)

/-- Modelled from the spec: the slot loop, alternating the source parent
starting from parent 1. -/
def gpxSpecSlotsAux (classes1 classes2 : List (Nat × List Nat)) :
    List Nat → Nat → Coloring → List Nat → Coloring × List Nat
  | [], _, child, unassigned => (child, unassigned)
  | c :: rest, currentParent, child, unassigned =>
    gpxSpecSlotsAux classes1 classes2 rest (if currentParent = 1 then 2 else 1)
      (gpxSpecAssignSlot (if currentParent = 1 then classes1 else classes2) c child unassigned).1
      (gpxSpecAssignSlot (if currentParent = 1 then classes1 else classes2) c child unassigned).2

/-- Modelled from the spec: the whole crossover — `k` alternating slots
filled with the least-index maximal classes, every remaining unassigned
vertex then receiving an independently uniform color in `1..k`. -/
def gpxSpecCrossover (p1 p2 : Coloring) (k : Nat) (g : GraphData) (g0 : RNG) :
    Coloring × RNG :=
  (gpxSpecSlotsAux (getClasses p1 k) (getClasses p2 k)
      (List.range' 1 k) 1 (g.nodes.map (fun v => (v, 0))) g.nodes).2.foldl
    (fun (acc : Coloring × RNG) nid =>
      (setColor acc.1 nid ((randBelow k acc.2).1 + 1), (randBelow k acc.2).2))
    ((gpxSpecSlotsAux (getClasses p1 k) (getClasses p2 k)
      (List.range' 1 k) 1 (g.nodes.map (fun v => (v, 0))) g.nodes).1, g0)

-- ## Theorems

section AdjLemmas

theorem lookup_of_mem_nodup {adj : List (Nat × List Nat)}
    (hn : (adjKeys adj).Nodup) {e : Nat × List Nat} (he : e ∈ adj) :
    adj.lookup e.1 = some e.2 := by
  induction adj with
  | nil => cases he
  | cons p rest ih =>
    obtain ⟨k, ns⟩ := p
    rcases List.mem_cons.mp he with h | h
    · subst h
      simp [lookup_cons_eq]
    · have hk : e.1 ≠ k := by
        intro hkk
        have : e.1 ∈ adjKeys rest := List.mem_map_of_mem Prod.fst h
        rw [hkk] at this
        exact (List.nodup_cons.mp hn).1 this
      rw [lookup_cons_eq, if_neg hk]
      exact ih (List.nodup_cons.mp hn).2 h

theorem adjOf_eq_of_mem {adj : List (Nat × List Nat)}
    (hn : (adjKeys adj).Nodup) {e : Nat × List Nat} (he : e ∈ adj) :
    adjOf adj e.1 = e.2 := by
  unfold adjOf
  rw [lookup_of_mem_nodup hn he]
  rfl

theorem mem_adjKeys_of_adjOf_ne_nil {adj : List (Nat × List Nat)} {v : Nat}
    (h : adjOf adj v ≠ []) : v ∈ adjKeys adj := by
  unfold adjOf at h
  cases hl : adj.lookup v with
  | none => rw [hl] at h; simp at h
  | some ns =>
    clear h
    induction adj with
    | nil => simp [List.lookup] at hl
    | cons p rest ih =>
      obtain ⟨k, b⟩ := p
      rw [lookup_cons_eq] at hl
      by_cases hvk : v = k
      · subst hvk
        exact List.mem_cons_self _ _
      · rw [if_neg hvk] at hl
        exact List.mem_cons_of_mem _ (ih hl)

theorem mem_adjKeys_of_mem_adjOf {adj : List (Nat × List Nat)}
    (wf : AdjWF adj) {u v : Nat} (h : v ∈ adjOf adj u) : v ∈ adjKeys adj := by
  apply mem_adjKeys_of_adjOf_ne_nil
  intro hnil
  have h1 : 0 < (adjOf adj u).count v := List.count_pos_iff.mpr h
  rw [wf.symm u v, hnil] at h1
  simp at h1

end AdjLemmas

section RawSum

theorem length_filter_eq_sum_map {α : Type} (l : List α) (p : α → Bool) :
    (l.filter p).length = (l.map (fun v => if p v then 1 else 0)).sum := by
  induction l with
  | nil => rfl
  | cons a t ih =>
    by_cases h : p a
    · simp [List.filter_cons, h, ih]
      omega
    · simp [List.filter_cons, h, ih]

theorem sum_map_eq_keys_sum (f : Nat → Nat) (l : List Nat) (K : Finset Nat)
    (hl : ∀ x ∈ l, x ∈ K) :
    (l.map f).sum = ∑ v ∈ K, l.count v * f v := by
  rw [Finset.sum_list_map_count]
  rw [Finset.sum_subset (fun x hx => hl x (List.mem_toFinset.mp hx))]
  · exact Finset.sum_congr rfl (fun x _ => by simp)
  · intro x _ hx
    rw [List.count_eq_zero_of_not_mem (fun hm => hx (List.mem_toFinset.mpr hm))]
    simp

theorem raw_eq_keys_sum (S : Coloring) (adj : List (Nat × List Nat))
    (wf : AdjWF adj) :
    rawConflictSum S adj
      = ∑ u ∈ keysFinset adj, ∑ v ∈ keysFinset adj,
          (adjOf adj u).count v * conflictFlag S u v := by
  unfold rawConflictSum
  have h1 : adj.map (fun e => (e.2.map (fun v => conflictFlag S e.1 v)).sum)
      = adj.map (fun e => ((adjOf adj e.1).map (fun v => conflictFlag S e.1 v)).sum) := by
    apply List.map_congr_left
    intro e he
    rw [adjOf_eq_of_mem wf.keysNodup he]
  rw [h1]
  have h2 : adj.map (fun e => ((adjOf adj e.1).map (fun v => conflictFlag S e.1 v)).sum)
      = (adjKeys adj).map (fun u => ((adjOf adj u).map (fun v => conflictFlag S u v)).sum) := by
    unfold adjKeys
    rw [List.map_map]
    rfl
  rw [h2]
  rw [Finset.sum_list_map_count]
  have h3 : ∀ u ∈ (adjKeys adj).toFinset,
      (adjKeys adj).count u • ((adjOf adj u).map (fun v => conflictFlag S u v)).sum
        = ∑ v ∈ keysFinset adj, (adjOf adj u).count v * conflictFlag S u v := by
    intro u hu
    rw [List.count_eq_one_of_mem wf.keysNodup (List.mem_toFinset.mp hu), one_smul]
    exact sum_map_eq_keys_sum _ _ _
      (fun x hx => List.mem_toFinset.mpr (mem_adjKeys_of_mem_adjOf wf hx))
  rw [Finset.sum_congr rfl h3]
  rfl

theorem conflictFlag_symm (S : Coloring) (u v : Nat) :
    conflictFlag S u v = conflictFlag S v u := by
  unfold conflictFlag
  have h : (colorOf S u = colorOf S v ∧ colorOf S u ≠ some 0)
      ↔ (colorOf S v = colorOf S u ∧ colorOf S v ≠ some 0) := by
    constructor
    · rintro ⟨h1, h2⟩
      exact ⟨h1.symm, h1 ▸ h2⟩
    · rintro ⟨h1, h2⟩
      exact ⟨h1.symm, h1 ▸ h2⟩
  simp only [h]

theorem even_sym_double_sum (A : Nat → Nat → Nat) (s : Finset Nat)
    (hdiag : ∀ u, A u u = 0) (hsymm : ∀ u v, A u v = A v u) :
    Even (∑ u ∈ s, ∑ v ∈ s, A u v) := by
  induction s using Finset.induction_on with
  | empty => simp
  | @insert a s ha ih =>
    rw [Finset.sum_insert ha, Finset.sum_insert ha, hdiag]
    have h2 : ∑ u ∈ s, ∑ v ∈ insert a s, A u v
        = ∑ u ∈ s, (A u a + ∑ v ∈ s, A u v) :=
      Finset.sum_congr rfl (fun u _ => Finset.sum_insert ha)
    rw [h2, Finset.sum_add_distrib]
    have h3 : ∑ u ∈ s, A u a = ∑ v ∈ s, A a v :=
      Finset.sum_congr rfl (fun u _ => hsymm u a)
    rw [h3]
    obtain ⟨m, hm⟩ := ih
    refine ⟨(∑ v ∈ s, A a v) + m, by omega⟩

theorem raw_even (S : Coloring) (adj : List (Nat × List Nat)) (wf : AdjWF adj) :
    Even (rawConflictSum S adj) := by
  rw [raw_eq_keys_sum S adj wf]
  apply even_sym_double_sum
  · intro u
    rw [List.count_eq_zero_of_not_mem (wf.noSelfLoop u)]
    simp
  · intro u v
    rw [wf.symm u v, conflictFlag_symm]

end RawSum

section DeltaLemmas

theorem conflictFlag_setColor_right (S : Coloring) (u c v : Nat)
    (hvu : v ≠ u) (hc0 : c ≠ 0) :
    conflictFlag (setColor S u c) u v = if colorOf S v = some c then 1 else 0 := by
  unfold conflictFlag
  rw [colorOf_setColor_self, colorOf_setColor_ne S u c v hvu]
  by_cases h : colorOf S v = some c
  · simp [h, hc0]
  · rw [if_neg h]
    apply if_neg
    rintro ⟨h1, -⟩
    exact h h1.symm

theorem conflictFlag_eval_right (S : Coloring) (u v a : Nat)
    (ha : colorOf S u = some a) (ha0 : a ≠ 0) :
    conflictFlag S u v = if colorOf S v = some a then 1 else 0 := by
  unfold conflictFlag
  rw [ha]
  by_cases h : colorOf S v = some a
  · simp [h, ha0]
  · rw [if_neg h]
    apply if_neg
    rintro ⟨h1, -⟩
    exact h h1.symm

theorem conflictFlag_setColor_left (S : Coloring) (u c w : Nat)
    (hwu : w ≠ u) (hc0 : c ≠ 0) :
    conflictFlag (setColor S u c) w u = if colorOf S w = some c then 1 else 0 := by
  unfold conflictFlag
  rw [colorOf_setColor_self, colorOf_setColor_ne S u c w hwu]
  by_cases h : colorOf S w = some c
  · simp [h, hc0]
  · rw [if_neg h]
    apply if_neg
    rintro ⟨h1, -⟩
    exact h h1

theorem conflictFlag_eval_left (S : Coloring) (u w a : Nat)
    (ha : colorOf S u = some a) (ha0 : a ≠ 0) :
    conflictFlag S w u = if colorOf S w = some a then 1 else 0 := by
  unfold conflictFlag
  rw [ha]
  by_cases h : colorOf S w = some a
  · simp [h, ha0]
  · rw [if_neg h]
    apply if_neg
    rintro ⟨h1, -⟩
    exact h h1

theorem conflictFlag_setColor_other (S : Coloring) (u c w v : Nat)
    (hw : w ≠ u) (hv : v ≠ u) :
    conflictFlag (setColor S u c) w v = conflictFlag S w v := by
  unfold conflictFlag
  rw [colorOf_setColor_ne S u c w hw, colorOf_setColor_ne S u c v hv]

/-- The exact change of the doubled conflict sum under recoloring vertex `u`
from its current color `a ≠ 0` to `c ≠ 0`: twice the difference between the
numbers of neighbors of `u` holding `c` and holding the old color. -/
theorem rawZ_setColor (S : Coloring) (adj : List (Nat × List Nat))
    (wf : AdjWF adj) (u a c : Nat) (hu : u ∈ adjKeys adj)
    (ha : colorOf S u = some a) (ha0 : a ≠ 0) (hc0 : c ≠ 0) (hca : c ≠ a) :
    (rawConflictSum (setColor S u c) adj : ℤ)
      = (rawConflictSum S adj : ℤ)
        + 2 * ((((adjOf adj u).filter (fun v => colorOf S v == some c)).length : ℤ)
               - (((adjOf adj u).filter (fun v => colorOf S v == colorOf S u)).length : ℤ)) := by
  have huK : u ∈ keysFinset adj := List.mem_toFinset.mpr hu
  have hcnt0 : (adjOf adj u).count u = 0 :=
    List.count_eq_zero_of_not_mem (wf.noSelfLoop u)
  -- abbreviations
  set K := keysFinset adj with hKdef
  set gC : Nat → ℤ := fun v => if colorOf S v = some c then 1 else 0 with hgC
  set gA : Nat → ℤ := fun v => if colorOf S v = some a then 1 else 0 with hgA
  set cnt : Nat → Nat → ℤ := fun w v => ((adjOf adj w).count v : ℤ) with hcnt
  -- cast the two raw sums to double finite sums over the keys
  have hraw : ∀ T : Coloring, (rawConflictSum T adj : ℤ)
      = ∑ w ∈ K, ∑ v ∈ K, cnt w v * (conflictFlag T w v : ℤ) := by
    intro T
    rw [raw_eq_keys_sum T adj wf]
    push_cast
    rfl
  rw [hraw, hraw]
  -- the filter lengths as sums over the keys
  have hNewLen : (((adjOf adj u).filter (fun v => colorOf S v == some c)).length : ℤ)
      = ∑ v ∈ K, cnt u v * gC v := by
    rw [length_filter_eq_sum_map]
    have := sum_map_eq_keys_sum (fun v => if (colorOf S v == some c) then 1 else 0)
      (adjOf adj u) K
      (fun x hx => List.mem_toFinset.mpr (mem_adjKeys_of_mem_adjOf wf hx))
    rw [this]
    push_cast
    apply Finset.sum_congr rfl
    intro v _
    by_cases h : colorOf S v = some c
    · simp [hgC, h, hcnt]
    · simp [hgC, h, hcnt]
  have hCurLen : (((adjOf adj u).filter (fun v => colorOf S v == colorOf S u)).length : ℤ)
      = ∑ v ∈ K, cnt u v * gA v := by
    rw [length_filter_eq_sum_map]
    have := sum_map_eq_keys_sum (fun v => if (colorOf S v == colorOf S u) then 1 else 0)
      (adjOf adj u) K
      (fun x hx => List.mem_toFinset.mpr (mem_adjKeys_of_mem_adjOf wf hx))
    rw [this]
    push_cast
    apply Finset.sum_congr rfl
    intro v _
    rw [ha]
    by_cases h : colorOf S v = some a
    · simp [hgA, h, hcnt]
    · simp [hgA, h, hcnt]
  rw [hNewLen, hCurLen]
  -- pointwise description of the difference of the two double sums
  have claimA : ∀ v,
      cnt u v * (conflictFlag (setColor S u c) u v : ℤ)
        - cnt u v * (conflictFlag S u v : ℤ)
      = cnt u v * (gC v - gA v) := by
    intro v
    by_cases hv : v = u
    · subst hv
      simp [hcnt, hcnt0]
    · rw [conflictFlag_setColor_right S u c v hv hc0,
        conflictFlag_eval_right S u v a ha ha0]
      by_cases h1 : colorOf S v = some c
      · have h2 : colorOf S v ≠ some a := by
          rw [h1]
          intro hh
          exact hca (Option.some_injective _ hh)
        simp only [hgC, hgA, if_pos h1, if_neg h2]
        ring
      · by_cases h2 : colorOf S v = some a
        · simp only [hgC, hgA, if_neg h1, if_pos h2]
          ring
        · simp only [hgC, hgA, if_neg h1, if_neg h2]
          ring
  have claimB : ∀ w, w ≠ u →
      cnt w u * (conflictFlag (setColor S u c) w u : ℤ)
        - cnt w u * (conflictFlag S w u : ℤ)
      = cnt u w * (gC w - gA w) := by
    intro w hw
    have hsw : cnt w u = cnt u w := by
      simp only [hcnt]
      rw [wf.symm w u]
    rw [hsw, conflictFlag_setColor_left S u c w hw hc0,
      conflictFlag_eval_left S u w a ha ha0]
    by_cases h1 : colorOf S w = some c
    · have h2 : colorOf S w ≠ some a := by
        rw [h1]
        intro hh
        exact hca (Option.some_injective _ hh)
      simp only [hgC, hgA, if_pos h1, if_neg h2]
      ring
    · by_cases h2 : colorOf S w = some a
      · simp only [hgC, hgA, if_neg h1, if_pos h2]
        ring
      · simp only [hgC, hgA, if_neg h1, if_neg h2]
        ring
  have claimC : ∀ w v, w ≠ u → v ≠ u →
      cnt w v * (conflictFlag (setColor S u c) w v : ℤ)
        - cnt w v * (conflictFlag S w v : ℤ) = 0 := by
    intro w v hw hv
    rw [conflictFlag_setColor_other S u c w v hw hv]
    ring
  -- assemble
  have hsplit : ∑ w ∈ K, ∑ v ∈ K, cnt w v * (conflictFlag (setColor S u c) w v : ℤ)
      - ∑ w ∈ K, ∑ v ∈ K, cnt w v * (conflictFlag S w v : ℤ)
      = ∑ w ∈ K, ∑ v ∈ K,
          (cnt w v * (conflictFlag (setColor S u c) w v : ℤ)
            - cnt w v * (conflictFlag S w v : ℤ)) := by
    rw [← Finset.sum_sub_distrib]
    apply Finset.sum_congr rfl
    intro w _
    rw [← Finset.sum_sub_distrib]
  have hrowu : ∑ v ∈ K,
      (cnt u v * (conflictFlag (setColor S u c) u v : ℤ)
        - cnt u v * (conflictFlag S u v : ℤ))
      = ∑ v ∈ K, cnt u v * (gC v - gA v) :=
    Finset.sum_congr rfl (fun v _ => claimA v)
  have hrow : ∀ w ∈ K.erase u, ∑ v ∈ K,
      (cnt w v * (conflictFlag (setColor S u c) w v : ℤ)
        - cnt w v * (conflictFlag S w v : ℤ))
      = cnt u w * (gC w - gA w) := by
    intro w hw
    have hwne : w ≠ u := (Finset.mem_erase.mp hw).1
    rw [Finset.sum_eq_single_of_mem u huK
      (fun v _ hvne => claimC w v hwne hvne)]
    exact claimB w hwne
  have hmain : ∑ w ∈ K, ∑ v ∈ K,
      (cnt w v * (conflictFlag (setColor S u c) w v : ℤ)
        - cnt w v * (conflictFlag S w v : ℤ))
      = 2 * (∑ v ∈ K, cnt u v * gC v - ∑ v ∈ K, cnt u v * gA v) := by
    rw [← Finset.add_sum_erase K _ huK, hrowu,
      Finset.sum_congr rfl hrow]
    have herase : ∑ w ∈ K.erase u, cnt u w * (gC w - gA w)
        = ∑ w ∈ K, cnt u w * (gC w - gA w) := by
      apply Finset.sum_erase
      simp [hcnt, hcnt0]
    rw [herase]
    have hdist : ∑ w ∈ K, cnt u w * (gC w - gA w)
        = ∑ v ∈ K, cnt u v * gC v - ∑ v ∈ K, cnt u v * gA v := by
      rw [← Finset.sum_sub_distrib]
      apply Finset.sum_congr rfl
      intro v _
      ring
    rw [hdist]
    ring
  linarith [hsplit, hmain]

/-- Conflict-count change under a recoloring of `u` from `a ≠ 0` to `c ≠ 0`:
exactly the delta the TabuCol move evaluation computes. -/
theorem countConflicts_setColor (S : Coloring) (adj : List (Nat × List Nat))
    (wf : AdjWF adj) (u a c : Nat) (hu : u ∈ adjKeys adj)
    (ha : colorOf S u = some a) (ha0 : a ≠ 0) (hc0 : c ≠ 0) (hca : c ≠ a) :
    (countConflicts (setColor S u c) adj : ℤ)
      = (countConflicts S adj : ℤ)
        + ((((adjOf adj u).filter (fun v => colorOf S v == some c)).length : ℤ)
           - (((adjOf adj u).filter (fun v => colorOf S v == colorOf S u)).length : ℤ)) := by
  have h1 := rawZ_setColor S adj wf u a c hu ha ha0 hc0 hca
  obtain ⟨m, hm⟩ := raw_even S adj wf
  obtain ⟨m', hm'⟩ := raw_even (setColor S u c) adj wf
  unfold countConflicts
  rw [hm, hm']
  rw [hm, hm'] at h1
  omega

theorem mem_of_lookup_eq_some {adj : List (Nat × List Nat)} {w : Nat}
    {ns : List Nat} (h : adj.lookup w = some ns) : (w, ns) ∈ adj := by
  induction adj with
  | nil => simp [List.lookup] at h
  | cons p rest ih =>
    obtain ⟨k, b⟩ := p
    rw [lookup_cons_eq] at h
    by_cases hk : w = k
    · rw [if_pos hk] at h
      subst hk
      exact List.mem_cons.mpr (Or.inl (by injection h with hh; rw [hh]))
    · rw [if_neg hk] at h
      exact List.mem_cons_of_mem _ (ih h)

theorem adjOf_nodup {adj : List (Nat × List Nat)}
    (hnb : ∀ e ∈ adj, e.2.Nodup) (w : Nat) : (adjOf adj w).Nodup := by
  unfold adjOf
  cases hl : adj.lookup w with
  | none => simp
  | some ns => exact hnb (w, ns) (mem_of_lookup_eq_some hl)

theorem mem_adjOf_symm {adj : List (Nat × List Nat)} (wf : AdjWF adj)
    {u v : Nat} (h : v ∈ adjOf adj u) : u ∈ adjOf adj v := by
  have h1 : 0 < (adjOf adj u).count v := List.count_pos_iff.mpr h
  rw [wf.symm u v] at h1
  exact List.count_pos_iff.mp h1

theorem raw_eq_two_mul_card (S : Coloring) (adj : List (Nat × List Nat))
    (wf : AdjWF adj) (hnb : ∀ e ∈ adj, e.2.Nodup)
    (htot : ∀ v ∈ adjKeys adj, (colorOf S v).isSome) :
    rawConflictSum S adj = 2 * conflictEdgeCount S adj := by
  classical
  rw [raw_eq_keys_sum S adj wf]
  set K := keysFinset adj with hK
  set cond : Nat × Nat → Prop := fun p =>
    p.2 ∈ adjOf adj p.1 ∧ colorOf S p.1 = colorOf S p.2 ∧ colorOf S p.1 ≠ some 0
    with hcond
  have hterm : ∀ w ∈ K, ∀ v ∈ K,
      (adjOf adj w).count v * conflictFlag S w v
        = if cond (w, v) then 1 else 0 := by
    intro w _ v _
    by_cases hm : v ∈ adjOf adj w
    · rw [List.count_eq_one_of_mem (adjOf_nodup hnb w) hm]
      unfold conflictFlag
      by_cases hcc : colorOf S w = colorOf S v ∧ colorOf S w ≠ some 0
      · rw [if_pos hcc, if_pos ⟨hm, hcc⟩]
      · rw [if_neg hcc, if_neg (fun hh => hcc hh.2)]
    · rw [List.count_eq_zero_of_not_mem hm, if_neg (fun hh => hm hh.1)]
      simp
  have hsum : ∑ w ∈ K, ∑ v ∈ K, (adjOf adj w).count v * conflictFlag S w v
      = ((K ×ˢ K).filter cond).card := by
    rw [Finset.card_filter]
    rw [Finset.sum_product]
    apply Finset.sum_congr rfl
    intro w hw
    apply Finset.sum_congr rfl
    intro v hv
    exact hterm w hw v hv
  rw [hsum]
  -- split the ordered conflict pairs by orientation
  have hsplit : (((K ×ˢ K).filter cond).filter (fun p => p.1 < p.2)).card
      + (((K ×ˢ K).filter cond).filter (fun p => ¬ p.1 < p.2)).card
      = ((K ×ˢ K).filter cond).card :=
    Finset.filter_card_add_filter_neg_card_eq_card _
  -- swapping the orientation stays inside the conflict-pair set
  have hcondswap : ∀ p : Nat × Nat, p ∈ (K ×ˢ K).filter cond →
      (p.2, p.1) ∈ (K ×ˢ K).filter cond ∧ p.1 ≠ p.2 := by
    intro p hp
    rw [Finset.mem_filter] at hp
    obtain ⟨hpm, hpc⟩ := hp
    simp only [hcond] at hpc
    obtain ⟨hadj, hcol, hnz⟩ := hpc
    have hne : p.1 ≠ p.2 := by
      intro hh
      apply wf.noSelfLoop p.1
      rw [hh] at hadj ⊢
      exact hadj
    refine ⟨Finset.mem_filter.mpr ⟨?_, ?_⟩, hne⟩
    · rw [Finset.mem_product] at hpm ⊢
      exact ⟨hpm.2, hpm.1⟩
    · simp only [hcond]
      refine ⟨mem_adjOf_symm wf hadj, hcol.symm, ?_⟩
      rw [← hcol]
      exact hnz
  -- the two orientations have the same cardinality
  have hswap : (((K ×ˢ K).filter cond).filter (fun p => ¬ p.1 < p.2)).card
      = (((K ×ˢ K).filter cond).filter (fun p => p.1 < p.2)).card := by
    apply Finset.card_nbij' (fun p => (p.2, p.1)) (fun p => (p.2, p.1))
    · intro p hp
      rw [Finset.mem_filter] at hp ⊢
      obtain ⟨hp1, hp2⟩ := hp
      obtain ⟨hmem, hne⟩ := hcondswap p hp1
      refine ⟨hmem, ?_⟩
      show p.2 < p.1
      have hnl : ¬ p.1 < p.2 := hp2
      omega
    · intro p hp
      rw [Finset.mem_filter] at hp ⊢
      obtain ⟨hp1, hp2⟩ := hp
      obtain ⟨hmem, hne⟩ := hcondswap p hp1
      refine ⟨hmem, ?_⟩
      show ¬ p.2 < p.1
      have hl : p.1 < p.2 := hp2
      omega
    · intro p _
      rfl
    · intro p _
      rfl
  -- identify the `<`-oriented pairs with the brute-force edge set
  have hident : (((K ×ˢ K).filter cond).filter (fun p => p.1 < p.2)).card
      = conflictEdgeCount S adj := by
    unfold conflictEdgeCount
    rw [Finset.filter_filter]
    congr 1
    apply Finset.filter_congr
    intro p hp
    rw [Finset.mem_product] at hp
    have hps : (colorOf S p.1).isSome := htot p.1 (List.mem_toFinset.mp hp.1)
    simp only [hcond]
    constructor
    · rintro ⟨⟨hadj, hcol, hnz⟩, hlt⟩
      obtain ⟨c, hc⟩ := Option.isSome_iff_exists.mp hps
      refine ⟨hlt, hadj, c, ?_, hc, hcol.symm.trans hc⟩
      intro hc0
      rw [hc0] at hc
      exact hnz hc
    · rintro ⟨hlt, hadj, c, hc0, hcu, hcv⟩
      refine ⟨⟨hadj, hcu.trans hcv.symm, ?_⟩, hlt⟩
      rw [hcu]
      intro hh
      exact hc0 (Option.some_injective _ hh)
  omega

end DeltaLemmas

section ClaimC2

/-- C2 (`code_bug` evidence): `runDSATUR` on the empty graph does not
return the empty coloring — `nodes.reduce` with no initial value throws a
`TypeError` (modelled by `none`), although the spec requires the empty
graph to be accepted with a trivial empty coloring. -/
theorem C2_runDSATUR_empty_graph_throws :
    runDSATUR ⟨[], [], []⟩ 1 = none := rfl

end ClaimC2

section ClaimC3

/-- C3 (counterexample): with `tabuMatrix[u][color] = 1` at iteration 1 and
no aspiration (`currentConflicts + delta = 5 ≥ 0 = bestConflicts`), the
code rejects the move (`stored ≥ iter`), while the claim's reading
(`tabu ⟺ iter < stored`) calls it eligible — so the claimed equivalence is
false at this input. -/
theorem C3_claim_counterexample :
    ¬ (moveAllowed (fun _ _ => 1) 1 1 1 5 0 0 = true
        ↔ specEligible (fun _ _ => 1) 1 1 1 5 0 0) := by
  intro h
  have h2 : specEligible (fun _ _ => 1) 1 1 1 5 0 0 := by
    left
    decide
  have h3 := h.mpr h2
  exact absurd h3 (by decide)

/-- C3 (amended): a candidate move is eligible iff it is not tabu — where a
move is tabu exactly while the current iteration is less than **or equal
to** the stored iteration index — or it satisfies the aspiration criterion
(running total plus delta strictly below the best-ever total); and the
scan leaves the running best move unchanged whenever the test fails. -/
theorem C3_eligibility_amended :
    (∀ (tabu : Nat → Option Nat → Nat) (iter u color : Nat) (cur delta best : Int),
      moveAllowed tabu iter u color cur delta best = true
        ↔ (¬ (iter ≤ tabu u (some color)) ∨ cur + delta < best))
    ∧ (∀ (tabu : Nat → Option Nat → Nat) (iter : Nat) (cur best : Int)
        (S : Coloring) (u : Nat) (oldC : Option Nat) (curN : Nat)
        (neighbors : List Nat) (color : Nat) (acc : Option Move × RNG),
        some color ≠ oldC →
        moveAllowed tabu iter u color cur
          (((neighbors.filter (fun v => colorOf S v == some color)).length : Int)
            - (curN : Int)) best = false →
        considerMove tabu iter cur best S u oldC curN neighbors color acc = acc) := by
  constructor
  · intro tabu iter u color cur delta best
    unfold moveAllowed
    simp [ge_iff_le]
  · intro tabu iter cur best S u oldC curN neighbors color acc hne hfail
    unfold considerMove
    rw [if_neg hne]
    simp only [hfail]
    rw [if_neg (by simp)]

/-- Witness for the amended C3 at a concrete input. -/
theorem C3_eligibility_amended_witness :
    considerMove (fun _ _ => 1) 1 5 0 [] 1 (some 2) 0 [] 1 (none, exRng)
      = (none, exRng) :=
  C3_eligibility_amended.2 (fun _ _ => 1) 1 5 0 [] 1 (some 2) 0 [] 1 (none, exRng)
    (by decide) (by decide)

end ClaimC3

section ClaimC8

/-- C8 (counterexample): the claim says every seed color outside `1..k`,
including the uncolored sentinel `0`, is replaced by a random color in
`1..k` before the search and hence the returned coloring has colors only
in `1..k`.  On the one-vertex graph with seed color `0` and `k = 1`, the
returned coloring still holds `0`: only colors strictly greater than `k`
are replaced. -/
theorem C8_claim_counterexample :
    colorOf (runTabuCol exGraph1 1 [(1, 0)] 5 7 exRng).1.1 1 = some 0 := by decide

end ClaimC8

section ClaimC5

/-- C5 (counterexample): on the symmetric graph `exGraph4` with `k = 1` and
the seed that colors edge `(1,2)` twice `1` and leaves `3,4` at `0`, the
vertex `3` (conflicted only through the `0 === 0` comparison) is recolored
with a delta that counts its `0`-colored neighbor as a removed conflict;
the running total drops to `0` while the true conflict count of the
returned coloring is `1`, so the returned pair is inconsistent and the
claimed invariant fails. -/
theorem C5_claim_counterexample :
    ¬ ((runTabuCol exGraph4 1 exSeedBad 10 3 exRng).1.2
        = (countConflicts (runTabuCol exGraph4 1 exSeedBad 10 3 exRng).1.1
            exGraph4.adj : Int)) := by decide

end ClaimC5

section ClaimC9

/-- C9 (counterexample): `initPopulation` with `popSize = 0` does not
surface any error — it silently returns the empty population, because none
of the entry points validate their parameters. -/
theorem C9_claim_counterexample :
    initPopulation exGraph1 ⟨1, 0, 5, 2, 5, 3⟩ exRng = some ([], exRng)
      ∧ initPopulation exGraph1 ⟨1, 0, 5, 2, 5, 3⟩ exRng ≠ none := by
  constructor
  · rfl
  · intro h
    simp [initPopulation, initPopulationAux] at h

end ClaimC9

-- ### HEA helper lemmas

section HEALemmas

theorem tournamentAux_isSome (pop : List Individual) :
    ∀ (n : Nat) (b : Individual) (g : RNG),
      (tournamentAux pop n (some b) g).1.isSome := by
  intro n
  induction n with
  | zero => intro b g; rfl
  | succ m ih =>
    intro b g
    unfold tournamentAux
    by_cases h : (pop.getD (randBelow pop.length g).1 ⟨[], 0⟩).conflicts < b.conflicts
    · simp only [if_pos h]
      exact ih _ _
    · simp only [if_neg h]
      exact ih _ _

theorem tournament_isSome (pop : List Individual) (g : RNG)
    (hne : pop ≠ []) : (tournament pop 3 g).1.isSome := by
  unfold tournament
  rw [if_neg (by simpa [List.isEmpty_iff] using hne)]
  unfold tournamentAux
  exact tournamentAux_isSome pop 2 _ _

theorem heaChild_isSome (pop : List Individual) (gr : GraphData)
    (params : AlgorithmParams) (g0 : RNG) (hne : pop ≠ []) :
    ∃ child g4, heaChild pop gr params g0 = some (child, g4) := by
  rcases ht1 : tournament pop 3 g0 with ⟨o1, g1⟩
  have h1 := tournament_isSome pop g0 hne
  rw [ht1] at h1
  obtain ⟨p1, hp1⟩ := Option.isSome_iff_exists.mp h1
  subst hp1
  rcases ht2 : tournament pop 3 g1 with ⟨o2, g2⟩
  have h2 := tournament_isSome pop g1 hne
  rw [ht2] at h2
  obtain ⟨p2, hp2⟩ := Option.isSome_iff_exists.mp h2
  subst hp2
  refine ⟨(runTabuCol gr params.k
      (gpxCrossover p1.coloring p2.coloring params.k gr g2).1
      params.maxIterTabu params.tabuTenure
      (gpxCrossover p1.coloring p2.coloring params.k gr g2).2).1,
    (runTabuCol gr params.k
      (gpxCrossover p1.coloring p2.coloring params.k gr g2).1
      params.maxIterTabu params.tabuTenure
      (gpxCrossover p1.coloring p2.coloring params.k gr g2).2).2, ?_⟩
  unfold heaChild
  simp only [ht1, ht2]

theorem setIndividual_length (pop : List Individual) (i : Int) (x : Individual) :
    (setIndividual pop i x).length = pop.length := by
  unfold setIndividual
  by_cases h : 0 ≤ i
  · rw [if_pos h, List.length_set]
  · rw [if_neg h]

theorem bestfold_spec (l : List Individual) :
    ∀ acc : Coloring × Int,
      (l.foldl (fun acc ind =>
          if ind.conflicts < acc.2 then (ind.coloring, ind.conflicts) else acc) acc = acc
        ∧ ∀ ind ∈ l, acc.2 ≤ ind.conflicts)
      ∨ (∃ ind ∈ l,
          l.foldl (fun acc ind =>
            if ind.conflicts < acc.2 then (ind.coloring, ind.conflicts) else acc) acc
            = (ind.coloring, ind.conflicts)
          ∧ ind.conflicts < acc.2 ∧ ∀ q ∈ l, ind.conflicts ≤ q.conflicts) := by
  induction l with
  | nil =>
    intro acc
    left
    exact ⟨rfl, by simp⟩
  | cons e t ih =>
    intro acc
    rw [List.foldl_cons]
    by_cases hlt : e.conflicts < acc.2
    · rw [if_pos hlt]
      rcases ih (e.coloring, e.conflicts) with ⟨heq, hall⟩ | ⟨p, hp, heq, hplt, hall⟩
      · right
        refine ⟨e, List.mem_cons_self e t, heq, hlt, ?_⟩
        intro q hq
        rcases List.mem_cons.mp hq with h | h
        · rw [h]
        · exact hall q h
      · right
        refine ⟨p, List.mem_cons_of_mem e hp, heq, lt_trans hplt hlt, ?_⟩
        intro q hq
        rcases List.mem_cons.mp hq with h | h
        · rw [h]
          exact le_of_lt hplt
        · exact hall q h
    · rw [if_neg hlt]
      rcases ih acc with ⟨heq, hall⟩ | ⟨p, hp, heq, hplt, hall⟩
      · left
        refine ⟨heq, ?_⟩
        intro q hq
        rcases List.mem_cons.mp hq with h | h
        · rw [h]
          omega
        · exact hall q h
      · right
        refine ⟨p, List.mem_cons_of_mem e hp, heq, hplt, ?_⟩
        intro q hq
        rcases List.mem_cons.mp hq with h | h
        · rw [h]
          omega
        · exact hall q h

theorem findBest_spec (pop : List Individual) (hne : pop ≠ []) :
    ∃ b bc, findBest pop = some (b, bc)
      ∧ (∀ ind ∈ pop, bc ≤ ind.conflicts)
      ∧ (∃ ind ∈ pop, ind.coloring = b ∧ ind.conflicts = bc) := by
  match pop, hne with
  | i0 :: rest, _ =>
    have hfb : findBest (i0 :: rest)
        = some ((i0 :: rest).foldl (fun acc ind =>
            if ind.conflicts < acc.2 then (ind.coloring, ind.conflicts) else acc)
          (i0.coloring, i0.conflicts)) := rfl
    rcases bestfold_spec (i0 :: rest) (i0.coloring, i0.conflicts) with
      ⟨heq, hall⟩ | ⟨p, hp, heq, hplt, hall⟩
    · rw [hfb, heq]
      exact ⟨i0.coloring, i0.conflicts, rfl, hall,
        i0, List.mem_cons_self i0 rest, rfl, rfl⟩
    · rw [hfb, heq]
      exact ⟨p.coloring, p.conflicts, rfl, hall, p, hp, rfl, rfl⟩

theorem worstfold_spec (l : List (Nat × Individual)) :
    ∀ acc : Int × Int,
      (l.foldl (fun acc p =>
          if p.2.conflicts > acc.2 then ((p.1 : Int), p.2.conflicts) else acc) acc = acc
        ∧ ∀ p ∈ l, p.2.conflicts ≤ acc.2)
      ∨ (∃ p ∈ l,
          l.foldl (fun acc p =>
            if p.2.conflicts > acc.2 then ((p.1 : Int), p.2.conflicts) else acc) acc
            = ((p.1 : Int), p.2.conflicts)
          ∧ acc.2 < p.2.conflicts ∧ ∀ q ∈ l, q.2.conflicts ≤ p.2.conflicts) := by
  induction l with
  | nil =>
    intro acc
    left
    exact ⟨rfl, by simp⟩
  | cons e t ih =>
    intro acc
    rw [List.foldl_cons]
    by_cases hgt : e.2.conflicts > acc.2
    · rw [if_pos hgt]
      rcases ih ((e.1 : Int), e.2.conflicts) with ⟨heq, hall⟩ | ⟨p, hp, heq, hplt, hall⟩
      · right
        refine ⟨e, List.mem_cons_self e t, heq, hgt, ?_⟩
        intro q hq
        rcases List.mem_cons.mp hq with h | h
        · rw [h]
        · exact hall q h
      · right
        refine ⟨p, List.mem_cons_of_mem e hp, heq, lt_trans hgt hplt, ?_⟩
        intro q hq
        rcases List.mem_cons.mp hq with h | h
        · rw [h]
          exact le_of_lt hplt
        · exact hall q h
    · rw [if_neg hgt]
      rcases ih acc with ⟨heq, hall⟩ | ⟨p, hp, heq, hplt, hall⟩
      · left
        refine ⟨heq, ?_⟩
        intro q hq
        rcases List.mem_cons.mp hq with h | h
        · rw [h]
          omega
        · exact hall q h
      · right
        refine ⟨p, List.mem_cons_of_mem e hp, heq, hplt, ?_⟩
        intro q hq
        rcases List.mem_cons.mp hq with h | h
        · rw [h]
          omega
        · exact hall q h

theorem findWorst_spec (pop : List Individual) (hne : pop ≠ [])
    (hnn : ∀ ind ∈ pop, 0 ≤ ind.conflicts) :
    ∃ i : Nat, findWorst pop = ((i : Int), (findWorst pop).2)
      ∧ i < pop.length
      ∧ (∀ (h : i < pop.length), (pop.get ⟨i, h⟩).conflicts = (findWorst pop).2)
      ∧ ∀ ind ∈ pop, ind.conflicts ≤ (findWorst pop).2 := by
  unfold findWorst
  rcases worstfold_spec pop.enum ((-1 : Int), (-1 : Int)) with
    ⟨heq, hall⟩ | ⟨p, hp, heq, hplt, hall⟩
  · exfalso
    match pop, hne with
    | i0 :: rest, _ =>
      have h0 : ((0 : Nat), i0) ∈ (i0 :: rest).enum := by
        rw [List.mk_mem_enum_iff_getElem?]
        simp
      have ha := hall _ h0
      simp only at ha
      have hb := hnn i0 (List.mem_cons_self i0 rest)
      omega
  · have hpe := List.mk_mem_enum_iff_getElem?.mp hp
    have hlt : p.1 < pop.length := by
      by_contra hge
      rw [List.getElem?_eq_none (by omega)] at hpe
      cases hpe
    refine ⟨p.1, ?_, hlt, ?_, ?_⟩
    · rw [heq]
    · intro h
      rw [heq]
      have hg : pop.get ⟨p.1, h⟩ = p.2 := by
        rw [List.get_eq_getElem]
        have h2 := List.getElem?_eq_getElem h
        rw [h2] at hpe
        injection hpe
      rw [hg]
    · intro ind hind
      rw [heq]
      obtain ⟨j, hj, hjq⟩ := List.mem_iff_getElem.mp hind
      have hje : ((j : Nat), ind) ∈ pop.enum := by
        rw [List.mk_mem_enum_iff_getElem?, List.getElem?_eq_getElem hj, hjq]
      exact hall _ hje

end HEALemmas

section HEACharacterization

theorem runHEAStep_char (pop : List Individual) (gr : GraphData)
    (params : AlgorithmParams) (g0 : RNG) (child : Coloring × Int) (g4 : RNG)
    (np : List Individual)
    (hchild : heaChild pop gr params g0 = some (child, g4))
    (hnp : np = (if child.2 < (findWorst pop).2
        ∧ (pop.any (fun ind => ind.conflicts == child.2)) = false
      then setIndividual pop (findWorst pop).1 ⟨child.1, child.2⟩ else pop))
    (b : Coloring) (bc : Int) (hfb : findBest np = some (b, bc)) :
    ∃ logs, runHEAStep pop gr params g0 = some (⟨np, b, bc, logs⟩, g4) := by
  unfold runHEAStep
  rw [hchild]
  by_cases hcond : ((child.2 < (findWorst pop).2
      ∧ (pop.any (fun ind => ind.conflicts == child.2)) = false))
  · rw [if_pos hcond] at hnp
    refine ⟨["Child (Conf: " ++ toString child.2 ++ ") replaced Individual "
      ++ toString (findWorst pop).1 ++ " (Conf: " ++ toString (findWorst pop).2 ++ ")"], ?_⟩
    show (match findBest (if child.2 < (findWorst pop).2
        ∧ (pop.any (fun ind => ind.conflicts == child.2)) = false
      then (setIndividual pop (findWorst pop).1 ⟨child.1, child.2⟩,
            ["Child (Conf: " ++ toString child.2 ++ ") replaced Individual "
              ++ toString (findWorst pop).1 ++ " (Conf: " ++ toString (findWorst pop).2 ++ ")"])
      else (pop, ["Child (Conf: " ++ toString child.2 ++ ") discarded."])).1 with
      | none => none
      | some bb => some ((⟨(if child.2 < (findWorst pop).2
          ∧ (pop.any (fun ind => ind.conflicts == child.2)) = false
        then (setIndividual pop (findWorst pop).1 ⟨child.1, child.2⟩,
              ["Child (Conf: " ++ toString child.2 ++ ") replaced Individual "
                ++ toString (findWorst pop).1 ++ " (Conf: " ++ toString (findWorst pop).2 ++ ")"])
        else (pop, ["Child (Conf: " ++ toString child.2 ++ ") discarded."])).1,
        bb.1, bb.2,
        (if child.2 < (findWorst pop).2
          ∧ (pop.any (fun ind => ind.conflicts == child.2)) = false
        then (setIndividual pop (findWorst pop).1 ⟨child.1, child.2⟩,
              ["Child (Conf: " ++ toString child.2 ++ ") replaced Individual "
                ++ toString (findWorst pop).1 ++ " (Conf: " ++ toString (findWorst pop).2 ++ ")"])
        else (pop, ["Child (Conf: " ++ toString child.2 ++ ") discarded."])).2⟩
        : HEAStepResult),
        g4)) = _
    rw [if_pos hcond]
    rw [← hnp, hfb]
  · rw [if_neg hcond] at hnp
    refine ⟨["Child (Conf: " ++ toString child.2 ++ ") discarded."], ?_⟩
    show (match findBest (if child.2 < (findWorst pop).2
        ∧ (pop.any (fun ind => ind.conflicts == child.2)) = false
      then (setIndividual pop (findWorst pop).1 ⟨child.1, child.2⟩,
            ["Child (Conf: " ++ toString child.2 ++ ") replaced Individual "
              ++ toString (findWorst pop).1 ++ " (Conf: " ++ toString (findWorst pop).2 ++ ")"])
      else (pop, ["Child (Conf: " ++ toString child.2 ++ ") discarded."])).1 with
      | none => none
      | some bb => some ((⟨(if child.2 < (findWorst pop).2
          ∧ (pop.any (fun ind => ind.conflicts == child.2)) = false
        then (setIndividual pop (findWorst pop).1 ⟨child.1, child.2⟩,
              ["Child (Conf: " ++ toString child.2 ++ ") replaced Individual "
                ++ toString (findWorst pop).1 ++ " (Conf: " ++ toString (findWorst pop).2 ++ ")"])
        else (pop, ["Child (Conf: " ++ toString child.2 ++ ") discarded."])).1,
        bb.1, bb.2,
        (if child.2 < (findWorst pop).2
          ∧ (pop.any (fun ind => ind.conflicts == child.2)) = false
        then (setIndividual pop (findWorst pop).1 ⟨child.1, child.2⟩,
              ["Child (Conf: " ++ toString child.2 ++ ") replaced Individual "
                ++ toString (findWorst pop).1 ++ " (Conf: " ++ toString (findWorst pop).2 ++ ")"])
        else (pop, ["Child (Conf: " ++ toString child.2 ++ ") discarded."])).2⟩
        : HEAStepResult),
        g4)) = _
    rw [if_neg hcond]
    rw [← hnp, hfb]

end HEACharacterization

theorem runHEAStep_isSome (pop : List Individual) (gr : GraphData)
    (params : AlgorithmParams) (g0 : RNG) (hne : pop ≠ []) :
    (runHEAStep pop gr params g0).isSome := by
  obtain ⟨child, g4, hc⟩ := heaChild_isSome pop gr params g0 hne
  have hlen : (if child.2 < (findWorst pop).2
      ∧ (pop.any (fun ind => ind.conflicts == child.2)) = false
    then setIndividual pop (findWorst pop).1 ⟨child.1, child.2⟩ else pop).length
      = pop.length := by
    split
    · exact setIndividual_length pop _ _
    · rfl
  have hne' : (if child.2 < (findWorst pop).2
      ∧ (pop.any (fun ind => ind.conflicts == child.2)) = false
    then setIndividual pop (findWorst pop).1 ⟨child.1, child.2⟩ else pop) ≠ [] := by
    intro hh
    apply hne
    have := hlen
    rw [hh] at this
    exact List.length_eq_zero.mp this.symm
  obtain ⟨b, bc, hfb, -, -⟩ := findBest_spec _ hne'
  obtain ⟨logs, hrun⟩ := runHEAStep_char pop gr params g0 child g4 _ hc rfl b bc hfb
  rw [hrun]
  rfl

section ClaimC4

/-- C4: in every `runHEAStep` call on a nonempty population with
non-negative stored conflict counts, the scanned worst slot holds a
maximum conflict count, and the returned population is the input
population with the worst slot replaced by the tabu-refined child if and
only if the child's conflict count is strictly below the worst's and no
current individual has exactly the child's conflict count; otherwise it
equals the input population. -/
theorem C4_replacement_rule (pop : List Individual) (gr : GraphData)
    (params : AlgorithmParams) (g0 : RNG) (hne : pop ≠ [])
    (hnn : ∀ ind ∈ pop, 0 ≤ ind.conflicts) :
    ∀ child g4, heaChild pop gr params g0 = some (child, g4) →
    ∃ res g', runHEAStep pop gr params g0 = some (res, g')
      ∧ (∃ i : Nat, findWorst pop = ((i : Int), (findWorst pop).2) ∧ i < pop.length
          ∧ (∀ h : i < pop.length, (pop.get ⟨i, h⟩).conflicts = (findWorst pop).2)
          ∧ ∀ ind ∈ pop, ind.conflicts ≤ (findWorst pop).2)
      ∧ res.newPopulation
          = (if child.2 < (findWorst pop).2 ∧ ¬ (∃ ind ∈ pop, ind.conflicts = child.2)
            then setIndividual pop (findWorst pop).1 ⟨child.1, child.2⟩
            else pop) := by
  intro child g4 hchild
  have hlen : (if child.2 < (findWorst pop).2
      ∧ (pop.any (fun ind => ind.conflicts == child.2)) = false
    then setIndividual pop (findWorst pop).1 ⟨child.1, child.2⟩ else pop).length
      = pop.length := by
    split
    · exact setIndividual_length pop _ _
    · rfl
  have hne' : (if child.2 < (findWorst pop).2
      ∧ (pop.any (fun ind => ind.conflicts == child.2)) = false
    then setIndividual pop (findWorst pop).1 ⟨child.1, child.2⟩ else pop) ≠ [] := by
    intro hh
    apply hne
    have := hlen
    rw [hh] at this
    exact List.length_eq_zero.mp this.symm
  obtain ⟨b, bc, hfb, -, -⟩ := findBest_spec _ hne'
  obtain ⟨logs, hrun⟩ := runHEAStep_char pop gr params g0 child g4 _ hchild rfl b bc hfb
  obtain ⟨i, hwi, hwlen, hwget, hwub⟩ := findWorst_spec pop hne hnn
  refine ⟨_, g4, hrun, ⟨i, hwi, hwlen, hwget, hwub⟩, ?_⟩
  show (if child.2 < (findWorst pop).2
      ∧ (pop.any (fun ind => ind.conflicts == child.2)) = false
    then setIndividual pop (findWorst pop).1 ⟨child.1, child.2⟩ else pop) = _
  apply if_congr _ rfl rfl
  constructor
  · rintro ⟨h1, h2⟩
    refine ⟨h1, ?_⟩
    rintro ⟨ind, hind, hic⟩
    have : pop.any (fun ind => ind.conflicts == child.2) = true := by
      rw [List.any_eq_true]
      exact ⟨ind, hind, by rw [hic]; exact beq_self_eq_true _⟩
    rw [h2] at this
    cases this
  · rintro ⟨h1, h2⟩
    refine ⟨h1, ?_⟩
    by_contra hany
    have : pop.any (fun ind => ind.conflicts == child.2) = true := by
      cases hx : pop.any (fun ind => ind.conflicts == child.2)
      · exact absurd hx hany
      · rfl
    rw [List.any_eq_true] at this
    obtain ⟨ind, hind, hic⟩ := this
    exact h2 ⟨ind, hind, beq_iff_eq.mp hic⟩

/-- Witness for C4 at a concrete one-individual population: the child ties
the only individual's conflict count, so the duplicate guard rejects it
and the population is returned unchanged. -/
theorem C4_replacement_rule_witness :
    ∃ res g', runHEAStep [⟨[(1, 1)], 0⟩] exGraph1 ⟨1, 1, 5, 2, 5, 1⟩ exRng
        = some (res, g')
      ∧ res.newPopulation = [⟨[(1, 1)], 0⟩] := by
  obtain ⟨res, g', hrun, hw, hnp⟩ :=
    C4_replacement_rule [⟨[(1, 1)], 0⟩] exGraph1 ⟨1, 1, 5, 2, 5, 1⟩ exRng
      (by decide) (by decide) ([(1, 1)], 0) ⟨fun _ => 0, 6⟩ rfl
  refine ⟨res, g', hrun, ?_⟩
  rw [hnp, if_neg]
  rintro ⟨h1, -⟩
  have : (findWorst [(⟨[(1, 1)], 0⟩ : Individual)]).2 = 0 := by decide
  omega

end ClaimC4

section ClaimC1

/-- C1: for a nonempty population whose stored conflict counts equal the
conflict counts of their colorings, with `k ≥ 1` and `popSize ≥ 1`, two
successive `runHEAStep` calls (the second on the returned population) both
succeed and the reported best conflict count never increases, for every
outcome of the random streams. -/
theorem C1_best_monotone (pop : List Individual) (gr : GraphData)
    (params : AlgorithmParams) (g1 g2 : RNG)
    (hne : pop ≠ []) (hk : 1 ≤ params.k)
    (hpopSize : pop.length = params.popSize) (hps : 1 ≤ params.popSize)
    (hacc : ∀ ind ∈ pop, ind.conflicts = (countConflicts ind.coloring gr.adj : Int)) :
    ∃ res1 g1' res2 g2',
      runHEAStep pop gr params g1 = some (res1, g1')
      ∧ runHEAStep res1.newPopulation gr params g2 = some (res2, g2')
      ∧ res2.bestConflicts ≤ res1.bestConflicts := by
  -- first step
  obtain ⟨child1, g4a, hc1⟩ := heaChild_isSome pop gr params g1 hne
  have hlen1 : (if child1.2 < (findWorst pop).2
      ∧ (pop.any (fun ind => ind.conflicts == child1.2)) = false
    then setIndividual pop (findWorst pop).1 ⟨child1.1, child1.2⟩ else pop).length
      = pop.length := by
    split
    · exact setIndividual_length pop _ _
    · rfl
  have hne1 : (if child1.2 < (findWorst pop).2
      ∧ (pop.any (fun ind => ind.conflicts == child1.2)) = false
    then setIndividual pop (findWorst pop).1 ⟨child1.1, child1.2⟩ else pop) ≠ [] := by
    intro hh
    apply hne
    have := hlen1
    rw [hh] at this
    exact List.length_eq_zero.mp this.symm
  set np1 := (if child1.2 < (findWorst pop).2
      ∧ (pop.any (fun ind => ind.conflicts == child1.2)) = false
    then setIndividual pop (findWorst pop).1 ⟨child1.1, child1.2⟩ else pop) with hnp1
  obtain ⟨b1, bc1, hfb1, hlb1, hat1⟩ := findBest_spec np1 hne1
  obtain ⟨logs1, hrun1⟩ := runHEAStep_char pop gr params g1 child1 g4a np1 hc1 hnp1 b1 bc1 hfb1
  -- second step, on the returned population np1
  obtain ⟨child2, g4b, hc2⟩ := heaChild_isSome np1 gr params g2 hne1
  have hlen2 : (if child2.2 < (findWorst np1).2
      ∧ (np1.any (fun ind => ind.conflicts == child2.2)) = false
    then setIndividual np1 (findWorst np1).1 ⟨child2.1, child2.2⟩ else np1).length
      = np1.length := by
    split
    · exact setIndividual_length np1 _ _
    · rfl
  have hne2 : (if child2.2 < (findWorst np1).2
      ∧ (np1.any (fun ind => ind.conflicts == child2.2)) = false
    then setIndividual np1 (findWorst np1).1 ⟨child2.1, child2.2⟩ else np1) ≠ [] := by
    intro hh
    apply hne1
    have := hlen2
    rw [hh] at this
    exact List.length_eq_zero.mp this.symm
  set np2 := (if child2.2 < (findWorst np1).2
      ∧ (np1.any (fun ind => ind.conflicts == child2.2)) = false
    then setIndividual np1 (findWorst np1).1 ⟨child2.1, child2.2⟩ else np1) with hnp2
  obtain ⟨b2, bc2, hfb2, hlb2, hat2⟩ := findBest_spec np2 hne2
  obtain ⟨logs2, hrun2⟩ := runHEAStep_char np1 gr params g2 child2 g4b np2 hc2 hnp2 b2 bc2 hfb2
  refine ⟨⟨np1, b1, bc1, logs1⟩, g4a, ⟨np2, b2, bc2, logs2⟩, g4b, hrun1, hrun2, ?_⟩
  show bc2 ≤ bc1
  -- monotonicity: the minimum over np2 is at most the minimum over np1
  by_cases hcond : (child2.2 < (findWorst np1).2
      ∧ (np1.any (fun ind => ind.conflicts == child2.2)) = false)
  · -- replacement branch
    rw [if_pos hcond] at hnp2
    rcases worstfold_spec np1.enum ((-1 : Int), (-1 : Int)) with
      ⟨heqw, -⟩ | ⟨p, hp, heqw, -, -⟩
    · -- degenerate: worstIdx = -1, the assignment is a no-op
      have hwc : findWorst np1 = ((-1 : Int), (-1 : Int)) := heqw
      rw [hwc] at hnp2
      unfold setIndividual at hnp2
      rw [if_neg (by norm_num)] at hnp2
      rw [hnp2] at hfb2
      rw [hfb1] at hfb2
      injection hfb2 with hfb2'
      injection hfb2' with hfbb hfbc
      omega
    · -- real replacement at a maximal slot
      have hwc : findWorst np1 = ((p.1 : Int), p.2.conflicts) := heqw
      have hpe := List.mk_mem_enum_iff_getElem?.mp hp
      have hplen : p.1 < np1.length := by
        by_contra hge
        rw [List.getElem?_eq_none (by omega)] at hpe
        cases hpe
      have hset : np2 = np1.set p.1 ⟨child2.1, child2.2⟩ := by
        rw [hnp2, hwc]
        unfold setIndividual
        rw [if_pos (by positivity)]
        simp
      have hneq : child2.2 < p.2.conflicts := by
        have := hcond.1
        rw [hwc] at this
        exact this
      -- locate an individual attaining bc1 in np1
      obtain ⟨ind, hind, -, hindc⟩ := hat1
      obtain ⟨j, hj, hjq⟩ := List.mem_iff_getElem.mp hind
      have hjq' : np1[j]? = some ind := by
        rw [List.getElem?_eq_getElem hj, hjq]
      by_cases hji : j = p.1
      · -- the minimum was at the replaced slot: the child is even smaller
        subst hji
        have hpi : some p.2 = some ind := by
          rw [← hpe, hjq']
        injection hpi with hpind
        have hbc1 : bc1 = p.2.conflicts := by
          rw [← hindc, ← hpind]
        have hmem : (⟨child2.1, child2.2⟩ : Individual) ∈ np2 := by
          rw [hset]
          have hplen2 : p.1 < (np1.set p.1 ⟨child2.1, child2.2⟩).length := by
            rw [List.length_set]
            exact hplen
          have heq := List.getElem_set_self hplen2
          have hmem0 : (np1.set p.1 ⟨child2.1, child2.2⟩)[p.1]
              ∈ np1.set p.1 ⟨child2.1, child2.2⟩ := List.getElem_mem hplen2
          rw [heq] at hmem0
          exact hmem0
        have := hlb2 _ hmem
        simp only at this
        omega
      · -- the minimum survives at its original slot
        have hmem : ind ∈ np2 := by
          rw [hset]
          have hj2 : j < (np1.set p.1 ⟨child2.1, child2.2⟩).length := by
            rw [List.length_set]
            exact hj
          have := List.getElem_set_ne (fun hh => hji hh.symm) hj2
          rw [← hjq]
          rw [← this]
          exact List.getElem_mem _
        have := hlb2 ind hmem
        omega
  · -- no replacement: both steps report the same minimum
    rw [if_neg hcond] at hnp2
    rw [hnp2] at hfb2
    rw [hfb1] at hfb2
    injection hfb2 with hfb2'
    injection hfb2' with hfbb hfbc
    omega

end ClaimC1

/-- Witness for C1 at a concrete one-individual population. -/
theorem C1_best_monotone_witness :
    ∃ res1 g1' res2 g2',
      runHEAStep [⟨[(1, 1)], 0⟩] exGraph1 ⟨1, 1, 5, 2, 5, 1⟩ exRng = some (res1, g1')
      ∧ runHEAStep res1.newPopulation exGraph1 ⟨1, 1, 5, 2, 5, 1⟩ exRng = some (res2, g2')
      ∧ res2.bestConflicts ≤ res1.bestConflicts :=
  C1_best_monotone [⟨[(1, 1)], 0⟩] exGraph1 ⟨1, 1, 5, 2, 5, 1⟩ exRng exRng
    (by decide) (by decide) (by decide) (by decide) (by decide)

section ClaimC9

/-- C9 (amended): the entry points perform no parameter validation at all:
`initPopulation` with `popSize = 0` silently returns the empty population,
`runTabuCol` with a zero iteration budget returns the fixed-up seed and
its conflict count without error, and `runHEAStep` succeeds on every
nonempty population for every parameter record, including `k < 1`. -/
theorem C9_no_validation_amended :
    (∀ (gr : GraphData) (params : AlgorithmParams) (g : RNG),
      params.popSize = 0 → initPopulation gr params g = some ([], g))
    ∧ (∀ (gr : GraphData) (k : Nat) (seed : Coloring) (tenure : Nat) (g : RNG),
        runTabuCol gr k seed 0 tenure g
          = (((fixColors k seed g).1,
              (countConflicts (fixColors k seed g).1 gr.adj : Int)),
             (fixColors k seed g).2))
    ∧ (∀ (pop : List Individual) (gr : GraphData) (params : AlgorithmParams) (g : RNG),
        pop ≠ [] → (runHEAStep pop gr params g).isSome) := by
  refine ⟨?_, ?_, ?_⟩
  · intro gr params g hp
    unfold initPopulation
    rw [hp]
    rfl
  · intro gr k seed tenure g
    unfold runTabuCol
    rcases hfc : fixColors k seed g with ⟨S1, g1⟩
    simp [hfc, tabuLoop]
  · intro pop gr params g hne
    exact runHEAStep_isSome pop gr params g hne

/-- Witness for the amended C9 at concrete invalid parameters
(`popSize = 0`, a zero iteration budget, and `k = 0`). -/
theorem C9_no_validation_amended_witness :
    initPopulation exGraph1 ⟨1, 0, 5, 2, 5, 3⟩ exRng = some ([], exRng)
    ∧ runTabuCol exGraph1 1 [(1, 2)] 0 3 exRng
        = (((fixColors 1 [(1, 2)] exRng).1,
            (countConflicts (fixColors 1 [(1, 2)] exRng).1 exGraph1.adj : Int)),
           (fixColors 1 [(1, 2)] exRng).2)
    ∧ (runHEAStep [⟨[(1, 1)], 0⟩] exGraph1 ⟨0, 1, 5, 2, 5, 1⟩ exRng).isSome :=
  ⟨C9_no_validation_amended.1 exGraph1 ⟨1, 0, 5, 2, 5, 3⟩ exRng rfl,
   C9_no_validation_amended.2.1 exGraph1 1 [(1, 2)] 3 exRng,
   C9_no_validation_amended.2.2 [⟨[(1, 1)], 0⟩] exGraph1 ⟨0, 1, 5, 2, 5, 1⟩ exRng
     (by decide)⟩

end ClaimC9

section ClaimC6

theorem lookup_eq_none_of_not_mem (adj : List (Nat × List Nat)) (u : Nat)
    (h : u ∉ adjKeys adj) : adj.lookup u = none := by
  cases hl : adj.lookup u with
  | none => rfl
  | some ns =>
    exfalso
    apply h
    exact List.mem_map_of_mem Prod.fst (mem_of_lookup_eq_some hl)

theorem adjOf_eq_nil_of_not_mem (adj : List (Nat × List Nat)) (u : Nat)
    (h : u ∉ adjKeys adj) : adjOf adj u = [] := by
  unfold adjOf
  rw [lookup_eq_none_of_not_mem adj u h]
  rfl

/-- `AdjWF` from finitely checkable conditions (used to discharge the
well-formedness of concrete graphs by `decide`). -/
theorem adjWF_of_bounded (adj : List (Nat × List Nat))
    (hn : (adjKeys adj).Nodup)
    (hsym : ∀ u ∈ adjKeys adj, ∀ v ∈ adjKeys adj,
      (adjOf adj u).count v = (adjOf adj v).count u)
    (hsub : ∀ e ∈ adj, ∀ v ∈ e.2, v ∈ adjKeys adj)
    (hirr : ∀ u ∈ adjKeys adj, u ∉ adjOf adj u) : AdjWF adj := by
  have hsub' : ∀ u v, v ∈ adjOf adj u → v ∈ adjKeys adj := by
    intro u v hv
    by_cases hu : u ∈ adjKeys adj
    · obtain ⟨e, he, heu⟩ := List.mem_map.mp hu
      have : adjOf adj e.1 = e.2 := adjOf_eq_of_mem hn he
      rw [heu] at this
      rw [this] at hv
      exact hsub e he v hv
    · rw [adjOf_eq_nil_of_not_mem adj u hu] at hv
      cases hv
  refine ⟨hn, ?_, ?_⟩
  · intro u v
    by_cases hu : u ∈ adjKeys adj
    · by_cases hv : v ∈ adjKeys adj
      · exact hsym u hu v hv
      · rw [adjOf_eq_nil_of_not_mem adj v hv]
        have h1 : v ∉ adjOf adj u := fun hh => hv (hsub' u v hh)
        rw [List.count_eq_zero_of_not_mem h1]
        rfl
    · rw [adjOf_eq_nil_of_not_mem adj u hu]
      have h1 : u ∉ adjOf adj v := fun hh => hu (hsub' v u hh)
      rw [List.count_eq_zero_of_not_mem h1]
      rfl
  · intro u
    by_cases hu : u ∈ adjKeys adj
    · exact hirr u hu
    · rw [adjOf_eq_nil_of_not_mem adj u hu]
      exact List.not_mem_nil u

/-- C6: for every adjacency map with unique keys, symmetric neighbor
multiplicities, no self-loops and no duplicate edges, and every coloring
total on its vertices, `countConflicts` returns exactly the brute-force
number of (unordered) adjacent pairs whose endpoints hold the same
non-zero color. -/
theorem C6_countConflicts_bruteforce (S : Coloring) (adj : List (Nat × List Nat))
    (wf : AdjWF adj) (hnb : ∀ e ∈ adj, e.2.Nodup)
    (htot : ∀ v ∈ adjKeys adj, (colorOf S v).isSome) :
    countConflicts S adj = conflictEdgeCount S adj := by
  unfold countConflicts
  have h := raw_eq_two_mul_card S adj wf hnb htot
  omega

/-- Witness for C6 on the concrete graph with edges `(1,2)` and `(3,4)`
and the total coloring `1,1,2,2`. -/
theorem C6_countConflicts_bruteforce_witness :
    countConflicts [(1, 1), (2, 1), (3, 2), (4, 2)] exGraph4.adj
      = conflictEdgeCount [(1, 1), (2, 1), (3, 2), (4, 2)] exGraph4.adj :=
  C6_countConflicts_bruteforce [(1, 1), (2, 1), (3, 2), (4, 2)] exGraph4.adj
    (adjWF_of_bounded exGraph4.adj (by decide) (by decide) (by decide) (by decide))
    (by decide) (by decide)

end ClaimC6

theorem foldl_preserve {α β : Type} (P : β → Prop) (f : β → α → β) :
    ∀ (l : List α) (b : β), (∀ b' a, a ∈ l → P b' → P (f b' a)) → P b →
      P (l.foldl f b) := by
  intro l
  induction l with
  | nil => intro b _ hb; exact hb
  | cons x t ih =>
    intro b hstep hb
    rw [List.foldl_cons]
    exact ih (f b x)
      (fun b' a ha hb' => hstep b' a (List.mem_cons_of_mem x ha) hb')
      (hstep b x (List.mem_cons_self x t) hb)

theorem considerMove_preserves (gr : GraphData) (k : Nat)
    (tabu : Nat → Option Nat → Nat) (iter : Nat) (curC bestC : Int)
    (S : Coloring) (conflicted : List Nat) (u : Nat) (color : Nat)
    (hu : u ∈ conflicted) (hcolor : color ∈ List.range' 1 k)
    (acc : Option Move × RNG)
    (hP : ∀ m, acc.1 = some m → MoveOK gr k S conflicted m) :
    ∀ m, (considerMove tabu iter curC bestC S u (colorOf S u)
        (((adjOf gr.adj u).filter (fun v => colorOf S v == colorOf S u)).length)
        (adjOf gr.adj u) color acc).1 = some m →
      MoveOK gr k S conflicted m := by
  intro m hm
  unfold considerMove at hm
  by_cases hskip : some color = colorOf S u
  · rw [if_pos hskip] at hm
    exact hP m hm
  · rw [if_neg hskip] at hm
    simp only at hm
    by_cases hallow : moveAllowed tabu iter u color curC
        ((((adjOf gr.adj u).filter (fun v => colorOf S v == some color)).length : Int)
          - ((((adjOf gr.adj u).filter
              (fun v => colorOf S v == colorOf S u)).length : Nat) : Int)) bestC = true
    · rw [if_pos hallow] at hm
      rcases acc with ⟨ao, ag⟩
      cases ao with
      | none =>
        simp only at hm
        injection hm with hm'
        subst hm'
        exact ⟨hu, rfl, hcolor, hskip, rfl⟩
      | some bm =>
        simp only at hm
        by_cases hlt : ((((adjOf gr.adj u).filter
            (fun v => colorOf S v == some color)).length : Int)
              - ((((adjOf gr.adj u).filter
                (fun v => colorOf S v == colorOf S u)).length : Nat) : Int)) < bm.delta
        · rw [if_pos hlt] at hm
          injection hm with hm'
          subst hm'
          exact ⟨hu, rfl, hcolor, hskip, rfl⟩
        · rw [if_neg hlt] at hm
          by_cases heq : ((((adjOf gr.adj u).filter
              (fun v => colorOf S v == some color)).length : Int)
                - ((((adjOf gr.adj u).filter
                  (fun v => colorOf S v == colorOf S u)).length : Nat) : Int)) = bm.delta
          · rw [if_pos heq] at hm
            simp only at hm
            by_cases hflip : (randCoin ag).1 = true
            · rw [if_pos hflip] at hm
              injection hm with hm'
              subst hm'
              exact ⟨hu, rfl, hcolor, hskip, rfl⟩
            · rw [if_neg hflip] at hm
              injection hm with hm'
              subst hm'
              exact hP bm rfl
          · rw [if_neg heq] at hm
            injection hm with hm'
            subst hm'
            exact hP bm rfl
    · rw [if_neg hallow] at hm
      exact hP m hm

theorem scanNodeMoves_preserves (gr : GraphData) (k : Nat)
    (tabu : Nat → Option Nat → Nat) (iter : Nat) (curC bestC : Int)
    (S : Coloring) (conflicted : List Nat) (acc : Option Move × RNG) (u : Nat)
    (hu : u ∈ conflicted)
    (hP : ∀ m, acc.1 = some m → MoveOK gr k S conflicted m) :
    ∀ m, (scanNodeMoves gr k tabu iter curC bestC S acc u).1 = some m →
      MoveOK gr k S conflicted m := by
  have h := foldl_preserve
    (fun a : Option Move × RNG => ∀ m, a.1 = some m → MoveOK gr k S conflicted m)
    (fun a color => considerMove tabu iter curC bestC S u (colorOf S u)
      (((adjOf gr.adj u).filter (fun v => colorOf S v == colorOf S u)).length)
      (adjOf gr.adj u) color a)
    (List.range' 1 k) acc
    (fun b' a ha hb' =>
      considerMove_preserves gr k tabu iter curC bestC S conflicted u a hu ha b' hb')
    hP
  exact h

theorem scanMoves_spec (gr : GraphData) (k : Nat)
    (tabu : Nat → Option Nat → Nat) (iter : Nat) (curC bestC : Int)
    (S : Coloring) (conflicted : List Nat) (g : RNG) :
    ∀ m, (scanMoves gr k tabu iter curC bestC S conflicted g).1 = some m →
      MoveOK gr k S conflicted m := by
  apply foldl_preserve
    (fun a : Option Move × RNG => ∀ m, a.1 = some m → MoveOK gr k S conflicted m)
    (scanNodeMoves gr k tabu iter curC bestC S) conflicted (none, g)
  · intro b' u hu hb'
    exact scanNodeMoves_preserves gr k tabu iter curC bestC S conflicted b' u hu hb'
  · intro m hm
    cases hm

theorem randBelow_lt (n : Nat) (g : RNG) (hn : 1 ≤ n) : (randBelow n g).1 < n := by
  unfold randBelow RNG.next
  simp only
  rw [if_neg (by omega)]
  exact Nat.mod_lt _ (by omega)

theorem getD_mem_of_lt {α : Type} [Inhabited α] (l : List α) (i : Nat) (d : α)
    (h : i < l.length) : l.getD i d ∈ l := by
  rw [List.getD_eq_getElem?_getD, List.getElem?_eq_getElem h]
  exact List.getElem_mem h

theorem mem_nodes_of_conflicted (gr : GraphData) (S : Coloring) (u : Nat)
    (h : u ∈ conflictedNodesOf gr S) : u ∈ gr.nodes :=
  List.mem_of_mem_filter h

theorem tabuIter_inv (gr : GraphData) (k tenure iter : Nat) (st : TabuState)
    (hg : GraphWF gr) (hk : 1 ≤ k) :
    TabuInv gr k st → TabuInv gr k (tabuIter gr k tenure iter st) := by
  rintro ⟨hcol, hcur, hbest⟩
  unfold tabuIter
  by_cases h0 : st.bestConflicts = 0
  · rw [if_pos h0]
    exact ⟨hcol, hcur, hbest⟩
  rw [if_neg h0]
  by_cases hemp : (conflictedNodesOf gr st.currentS).isEmpty = true
  · rw [if_pos hemp]
    exact ⟨hcol, hcur, hbest⟩
  rw [if_neg hemp]
  rcases hscan : scanMoves gr k st.tabu iter st.currentConflicts st.bestConflicts
    st.currentS (conflictedNodesOf gr st.currentS) st.gen with ⟨mo, g1⟩
  cases mo with
  | some m =>
    have hok := scanMoves_spec gr k st.tabu iter st.currentConflicts st.bestConflicts
      st.currentS (conflictedNodesOf gr st.currentS) st.gen m (by rw [hscan])
    obtain ⟨hmc, hmold, hmrange, hmne, hmdelta⟩ := hok
    have hnode : m.node ∈ gr.nodes := mem_nodes_of_conflicted gr st.currentS m.node hmc
    obtain ⟨a, ha, ha1, hak⟩ := hcol m.node hnode
    have hrange' := List.mem_range'_1.mp hmrange
    have hc1 : 1 ≤ m.newColor := hrange'.1
    have hck : m.newColor ≤ k := by omega
    have hca : m.newColor ≠ a := by
      intro hh
      apply hmne
      rw [hmold, ha, hh]
    have hkeys : m.node ∈ adjKeys gr.adj := by
      rw [hg.keysEq]
      exact hnode
    have hdeltaC : (countConflicts (setColor st.currentS m.node m.newColor) gr.adj : Int)
        = (countConflicts st.currentS gr.adj : Int) + m.delta := by
      rw [hmdelta]
      exact countConflicts_setColor st.currentS gr.adj hg.adjWF m.node a m.newColor
        hkeys ha (by omega) (by omega) hca
    have hcolors' : ∀ v ∈ gr.nodes, ∃ c,
        colorOf (setColor st.currentS m.node m.newColor) v = some c ∧ 1 ≤ c ∧ c ≤ k := by
      intro v hv
      by_cases hvm : v = m.node
      · subst hvm
        exact ⟨m.newColor, colorOf_setColor_self _ _ _, hc1, hck⟩
      · obtain ⟨c, hc, h1, h2⟩ := hcol v hv
        exact ⟨c, by rw [colorOf_setColor_ne _ _ _ _ hvm]; exact hc, h1, h2⟩
    have hcur' : st.currentConflicts + m.delta
        = (countConflicts (setColor st.currentS m.node m.newColor) gr.adj : Int) := by
      rw [hdeltaC, hcur]
    show TabuInv gr k
      (if st.currentConflicts + m.delta < st.bestConflicts then
        ⟨setColor st.currentS m.node m.newColor, setColor st.currentS m.node m.newColor,
         st.currentConflicts + m.delta, st.currentConflicts + m.delta,
         fun v c => if v = m.node ∧ c = m.oldColor then iter + tenure + (randBelow 2 g1).1
           else st.tabu v c,
         (randBelow 2 g1).2⟩
      else
        ⟨setColor st.currentS m.node m.newColor, st.bestS,
         st.currentConflicts + m.delta, st.bestConflicts,
         fun v c => if v = m.node ∧ c = m.oldColor then iter + tenure + (randBelow 2 g1).1
           else st.tabu v c,
         (randBelow 2 g1).2⟩)
    by_cases hless : st.currentConflicts + m.delta < st.bestConflicts
    · rw [if_pos hless]
      exact ⟨hcolors', hcur', hcur'⟩
    · rw [if_neg hless]
      exact ⟨hcolors', hcur', hbest⟩
  | none =>
    have hne : conflictedNodesOf gr st.currentS ≠ [] := by
      intro hh
      apply hemp
      rw [hh]
      rfl
    have hlen : 1 ≤ (conflictedNodesOf gr st.currentS).length := by
      cases hcc : conflictedNodesOf gr st.currentS with
      | nil => exact absurd hcc hne
      | cons x t => simp
    have humem : (conflictedNodesOf gr st.currentS).getD
        (randBelow (conflictedNodesOf gr st.currentS).length g1).1 0
          ∈ conflictedNodesOf gr st.currentS :=
      getD_mem_of_lt _ _ _ (randBelow_lt _ g1 hlen)
    have hunode : (conflictedNodesOf gr st.currentS).getD
        (randBelow (conflictedNodesOf gr st.currentS).length g1).1 0 ∈ gr.nodes :=
      mem_nodes_of_conflicted gr st.currentS _ humem
    show TabuInv gr k
      (if (some ((randBelow k
          (randBelow (conflictedNodesOf gr st.currentS).length g1).2).1 + 1) : Option Nat)
        ≠ colorOf st.currentS ((conflictedNodesOf gr st.currentS).getD
            (randBelow (conflictedNodesOf gr st.currentS).length g1).1 0) then
        ⟨setColor st.currentS
          ((conflictedNodesOf gr st.currentS).getD
            (randBelow (conflictedNodesOf gr st.currentS).length g1).1 0)
          ((randBelow k (randBelow (conflictedNodesOf gr st.currentS).length g1).2).1 + 1),
         st.bestS,
         (countConflicts (setColor st.currentS
            ((conflictedNodesOf gr st.currentS).getD
              (randBelow (conflictedNodesOf gr st.currentS).length g1).1 0)
            ((randBelow k (randBelow (conflictedNodesOf gr st.currentS).length g1).2).1 + 1))
            gr.adj : Int),
         st.bestConflicts, st.tabu,
         (randBelow k (randBelow (conflictedNodesOf gr st.currentS).length g1).2).2⟩
      else
        ⟨st.currentS, st.bestS, st.currentConflicts, st.bestConflicts, st.tabu,
         (randBelow k (randBelow (conflictedNodesOf gr st.currentS).length g1).2).2⟩)
    by_cases hdiff : (some ((randBelow k
        (randBelow (conflictedNodesOf gr st.currentS).length g1).2).1 + 1) : Option Nat)
      ≠ colorOf st.currentS ((conflictedNodesOf gr st.currentS).getD
          (randBelow (conflictedNodesOf gr st.currentS).length g1).1 0)
    · rw [if_pos hdiff]
      refine ⟨?_, rfl, hbest⟩
      intro v hv
      by_cases hvm : v = (conflictedNodesOf gr st.currentS).getD
          (randBelow (conflictedNodesOf gr st.currentS).length g1).1 0
      · subst hvm
        refine ⟨(randBelow k (randBelow (conflictedNodesOf gr st.currentS).length g1).2).1 + 1,
          colorOf_setColor_self _ _ _, by omega, ?_⟩
        have := randBelow_lt k (randBelow (conflictedNodesOf gr st.currentS).length g1).2 hk
        omega
      · obtain ⟨c, hc, h1, h2⟩ := hcol v hv
        exact ⟨c, by rw [colorOf_setColor_ne _ _ _ _ hvm]; exact hc, h1, h2⟩
    · rw [if_neg hdiff]
      exact ⟨hcol, hcur, hbest⟩

theorem tabuLoop_inv (gr : GraphData) (k tenure : Nat) (P : TabuState → Prop)
    (hstep : ∀ iter st, P st → P (tabuIter gr k tenure iter st)) :
    ∀ (n iter : Nat) (st : TabuState), P st → P (tabuLoop gr k tenure n iter st) := by
  intro n
  induction n with
  | zero => intro iter st h; exact h
  | succ m ih =>
    intro iter st h
    unfold tabuLoop
    exact ih (iter + 1) _ (hstep iter st h)

theorem fixColors_keep (k : Nat) :
    ∀ (S : Coloring) (g : RNG) (v c : Nat),
      colorOf S v = some c → c ≤ k → colorOf (fixColors k S g).1 v = some c := by
  intro S
  induction S with
  | nil => intro g v c hc _; cases hc
  | cons p rest ih =>
    intro g v c hc hck
    obtain ⟨v0, c0⟩ := p
    unfold fixColors
    unfold colorOf at hc
    rw [lookup_cons_eq] at hc
    by_cases hv : v = v0
    · rw [if_pos hv] at hc
      injection hc with hc
      subst hc
      rw [if_neg (by omega)]
      simp only
      unfold colorOf
      rw [hv, lookup_cons_eq, if_pos rfl]
    · rw [if_neg hv] at hc
      by_cases hgt : c0 > k
      · rw [if_pos hgt]
        simp only
        unfold colorOf
        rw [lookup_cons_eq, if_neg hv]
        exact ih _ v c hc hck
      · rw [if_neg hgt]
        simp only
        unfold colorOf
        rw [lookup_cons_eq, if_neg hv]
        exact ih _ v c hc hck

section ClaimC5

/-- C5 (amended): on a well-formed graph (symmetric adjacency with unique
keys, no self-loops, keys = vertex list), with `k ≥ 1` and a seed coloring
that assigns every vertex a color in `1..k`, the TabuCol invariant — the
running conflict total equals `countConflicts` of the current coloring,
and likewise for the best pair — is preserved by every iteration (both for
an applied best move and for a forced random move), holds initially, and
hence the returned pair is consistent: the returned conflict count equals
`countConflicts` of the returned coloring. -/
theorem C5_invariant_amended (gr : GraphData) (k : Nat) (seed : Coloring)
    (maxIter tenure : Nat) (g : RNG)
    (hg : GraphWF gr) (hk : 1 ≤ k)
    (hseed : ∀ v ∈ gr.nodes, ∃ c, colorOf seed v = some c ∧ 1 ≤ c ∧ c ≤ k) :
    (∀ iter st, TabuInv gr k st → TabuInv gr k (tabuIter gr k tenure iter st))
    ∧ (runTabuCol gr k seed maxIter tenure g).1.2
        = (countConflicts (runTabuCol gr k seed maxIter tenure g).1.1 gr.adj : Int) := by
  refine ⟨fun iter st => tabuIter_inv gr k tenure iter st hg hk, ?_⟩
  unfold runTabuCol
  rcases hfc : fixColors k seed g with ⟨S1, g1⟩
  simp only
  have hinv0 : TabuInv gr k
      ⟨S1, S1, (countConflicts S1 gr.adj : Int), (countConflicts S1 gr.adj : Int),
       fun _ _ => 0, g1⟩ := by
    refine ⟨?_, rfl, rfl⟩
    intro v hv
    obtain ⟨c, hc, h1, h2⟩ := hseed v hv
    refine ⟨c, ?_, h1, h2⟩
    have := fixColors_keep k seed g v c hc h2
    rw [hfc] at this
    exact this
  have hfin := tabuLoop_inv gr k tenure (TabuInv gr k)
    (fun iter st => tabuIter_inv gr k tenure iter st hg hk) maxIter 1 _ hinv0
  exact hfin.2.2

/-- Witness for the amended C5 on the two-edge graph with a proper seed. -/
theorem C5_invariant_amended_witness :
    (runTabuCol exGraph4 2 [(1, 1), (2, 2), (3, 1), (4, 2)] 10 3 exRng).1.2
      = (countConflicts
          (runTabuCol exGraph4 2 [(1, 1), (2, 2), (3, 1), (4, 2)] 10 3 exRng).1.1
          exGraph4.adj : Int) :=
  (C5_invariant_amended exGraph4 2 [(1, 1), (2, 2), (3, 1), (4, 2)] 10 3 exRng
    ⟨adjWF_of_bounded exGraph4.adj (by decide) (by decide) (by decide) (by decide),
     by decide⟩
    (by decide) (by decide)).2

end ClaimC5

theorem fixColors_none (k : Nat) :
    ∀ (S : Coloring) (g : RNG) (v : Nat),
      colorOf S v = none → colorOf (fixColors k S g).1 v = none := by
  intro S
  induction S with
  | nil => intro g v _; rfl
  | cons p rest ih =>
    intro g v hc
    obtain ⟨v0, c0⟩ := p
    unfold colorOf at hc
    rw [lookup_cons_eq] at hc
    by_cases hv : v = v0
    · rw [if_pos hv] at hc
      cases hc
    · rw [if_neg hv] at hc
      unfold fixColors
      by_cases hgt : c0 > k
      · rw [if_pos hgt]
        simp only
        unfold colorOf
        rw [lookup_cons_eq, if_neg hv]
        exact ih _ v hc
      · rw [if_neg hgt]
        simp only
        unfold colorOf
        rw [lookup_cons_eq, if_neg hv]
        exact ih _ v hc

theorem fixColors_replace (k : Nat) (hk : 1 ≤ k) :
    ∀ (S : Coloring) (g : RNG) (v c : Nat),
      colorOf S v = some c → k < c →
      ∃ c', colorOf (fixColors k S g).1 v = some c' ∧ 1 ≤ c' ∧ c' ≤ k := by
  intro S
  induction S with
  | nil => intro g v c hc _; cases hc
  | cons p rest ih =>
    intro g v c hc hkc
    obtain ⟨v0, c0⟩ := p
    unfold colorOf at hc
    rw [lookup_cons_eq] at hc
    by_cases hv : v = v0
    · rw [if_pos hv] at hc
      injection hc with hc
      subst hc
      unfold fixColors
      rw [if_pos (by omega)]
      simp only
      refine ⟨(randBelow k g).1 + 1, ?_, by omega, ?_⟩
      · unfold colorOf
        rw [hv, lookup_cons_eq, if_pos rfl]
      · have := randBelow_lt k g hk
        omega
    · rw [if_neg hv] at hc
      unfold fixColors
      by_cases hgt : c0 > k
      · rw [if_pos hgt]
        simp only
        obtain ⟨c', hc', h1, h2⟩ := ih _ v c hc hkc
        refine ⟨c', ?_, h1, h2⟩
        unfold colorOf
        rw [lookup_cons_eq, if_neg hv]
        exact hc'
      · rw [if_neg hgt]
        simp only
        obtain ⟨c', hc', h1, h2⟩ := ih _ v c hc hkc
        refine ⟨c', ?_, h1, h2⟩
        unfold colorOf
        rw [lookup_cons_eq, if_neg hv]
        exact hc'

theorem fixColors_vals (k : Nat) (hk : 1 ≤ k) :
    ∀ (S : Coloring) (g : RNG), (∀ p ∈ S, 1 ≤ p.2) →
      ∀ p ∈ (fixColors k S g).1, 1 ≤ p.2 ∧ p.2 ≤ k := by
  intro S
  induction S with
  | nil => intro g _ p hp; cases hp
  | cons e rest ih =>
    intro g hS p hp
    obtain ⟨v0, c0⟩ := e
    unfold fixColors at hp
    by_cases hgt : c0 > k
    · rw [if_pos hgt] at hp
      simp only at hp
      rcases List.mem_cons.mp hp with h | h
      · subst h
        have := randBelow_lt k g hk
        constructor <;> simp <;> omega
      · exact ih _ (fun q hq => hS q (List.mem_cons_of_mem _ hq)) p h
    · rw [if_neg hgt] at hp
      simp only at hp
      rcases List.mem_cons.mp hp with h | h
      · subst h
        refine ⟨hS (v0, c0) (List.mem_cons_self _ _), by simpa using hgt⟩
      · exact ih _ (fun q hq => hS q (List.mem_cons_of_mem _ hq)) p h

theorem setColor_vals (S : Coloring) (u c k : Nat)
    (hS : ∀ p ∈ S, 1 ≤ p.2 ∧ p.2 ≤ k) (hc : 1 ≤ c ∧ c ≤ k) :
    ∀ p ∈ setColor S u c, 1 ≤ p.2 ∧ p.2 ≤ k := by
  intro p hp
  unfold setColor at hp
  by_cases h : (S.lookup u).isSome
  · rw [if_pos h] at hp
    obtain ⟨q, hq, hqp⟩ := List.mem_map.mp hp
    by_cases hqu : q.1 = u
    · rw [if_pos hqu] at hqp
      rw [← hqp]
      exact hc
    · rw [if_neg hqu] at hqp
      rw [← hqp]
      exact hS q hq
  · rw [if_neg h] at hp
    rcases List.mem_append.mp hp with h1 | h1
    · exact hS p h1
    · rcases List.mem_cons.mp h1 with h2 | h2
      · rw [h2]
        exact hc
      · cases h2

theorem tabuIter_range_inv (gr : GraphData) (k tenure iter : Nat) (st : TabuState)
    (hk : 1 ≤ k) :
    TabuRangeInv k st → TabuRangeInv k (tabuIter gr k tenure iter st) := by
  rintro ⟨hcurS, hbestS⟩
  unfold tabuIter
  by_cases h0 : st.bestConflicts = 0
  · rw [if_pos h0]
    exact ⟨hcurS, hbestS⟩
  rw [if_neg h0]
  by_cases hemp : (conflictedNodesOf gr st.currentS).isEmpty = true
  · rw [if_pos hemp]
    exact ⟨hcurS, hbestS⟩
  rw [if_neg hemp]
  rcases hscan : scanMoves gr k st.tabu iter st.currentConflicts st.bestConflicts
    st.currentS (conflictedNodesOf gr st.currentS) st.gen with ⟨mo, g1⟩
  cases mo with
  | some m =>
    have hok := scanMoves_spec gr k st.tabu iter st.currentConflicts st.bestConflicts
      st.currentS (conflictedNodesOf gr st.currentS) st.gen m (by rw [hscan])
    obtain ⟨-, -, hmrange, -, -⟩ := hok
    have hrange' := List.mem_range'_1.mp hmrange
    have hcsv := setColor_vals st.currentS m.node m.newColor k hcurS ⟨hrange'.1, by omega⟩
    show TabuRangeInv k
      (if st.currentConflicts + m.delta < st.bestConflicts then
        ⟨setColor st.currentS m.node m.newColor, setColor st.currentS m.node m.newColor,
         st.currentConflicts + m.delta, st.currentConflicts + m.delta,
         fun v c => if v = m.node ∧ c = m.oldColor then iter + tenure + (randBelow 2 g1).1
           else st.tabu v c,
         (randBelow 2 g1).2⟩
      else
        ⟨setColor st.currentS m.node m.newColor, st.bestS,
         st.currentConflicts + m.delta, st.bestConflicts,
         fun v c => if v = m.node ∧ c = m.oldColor then iter + tenure + (randBelow 2 g1).1
           else st.tabu v c,
         (randBelow 2 g1).2⟩)
    by_cases hless : st.currentConflicts + m.delta < st.bestConflicts
    · rw [if_pos hless]
      exact ⟨hcsv, hcsv⟩
    · rw [if_neg hless]
      exact ⟨hcsv, hbestS⟩
  | none =>
    have hrc := randBelow_lt k (randBelow (conflictedNodesOf gr st.currentS).length g1).2 hk
    have hcsv := setColor_vals st.currentS
      ((conflictedNodesOf gr st.currentS).getD
        (randBelow (conflictedNodesOf gr st.currentS).length g1).1 0)
      ((randBelow k (randBelow (conflictedNodesOf gr st.currentS).length g1).2).1 + 1)
      k hcurS ⟨by omega, by omega⟩
    show TabuRangeInv k
      (if (some ((randBelow k
          (randBelow (conflictedNodesOf gr st.currentS).length g1).2).1 + 1) : Option Nat)
        ≠ colorOf st.currentS ((conflictedNodesOf gr st.currentS).getD
            (randBelow (conflictedNodesOf gr st.currentS).length g1).1 0) then
        ⟨setColor st.currentS
          ((conflictedNodesOf gr st.currentS).getD
            (randBelow (conflictedNodesOf gr st.currentS).length g1).1 0)
          ((randBelow k (randBelow (conflictedNodesOf gr st.currentS).length g1).2).1 + 1),
         st.bestS,
         (countConflicts (setColor st.currentS
            ((conflictedNodesOf gr st.currentS).getD
              (randBelow (conflictedNodesOf gr st.currentS).length g1).1 0)
            ((randBelow k (randBelow (conflictedNodesOf gr st.currentS).length g1).2).1 + 1))
            gr.adj : Int),
         st.bestConflicts, st.tabu,
         (randBelow k (randBelow (conflictedNodesOf gr st.currentS).length g1).2).2⟩
      else
        ⟨st.currentS, st.bestS, st.currentConflicts, st.bestConflicts, st.tabu,
         (randBelow k (randBelow (conflictedNodesOf gr st.currentS).length g1).2).2⟩)
    by_cases hdiff : (some ((randBelow k
        (randBelow (conflictedNodesOf gr st.currentS).length g1).2).1 + 1) : Option Nat)
      ≠ colorOf st.currentS ((conflictedNodesOf gr st.currentS).getD
          (randBelow (conflictedNodesOf gr st.currentS).length g1).1 0)
    · rw [if_pos hdiff]
      exact ⟨hcsv, hbestS⟩
    · rw [if_neg hdiff]
      exact ⟨hcurS, hbestS⟩

section ClaimC8

/-- C8 (amended): before the search, `runTabuCol` replaces exactly the
seed colors strictly greater than `k` with a uniformly random color in
`1..k`; colors at most `k` — including the uncolored sentinel `0` — and
missing entries are left unchanged.  Consequently, when `k ≥ 1` and every
seed color is at least `1`, the search starts from and returns a coloring
whose colors all lie in `1..k`. -/
theorem C8_fix_amended :
    (∀ (k : Nat) (S : Coloring) (g : RNG) (v : Nat),
      (∀ c, colorOf S v = some c → c ≤ k → colorOf (fixColors k S g).1 v = some c)
      ∧ (colorOf S v = none → colorOf (fixColors k S g).1 v = none)
      ∧ (∀ c, 1 ≤ k → colorOf S v = some c → k < c →
          ∃ c', colorOf (fixColors k S g).1 v = some c' ∧ 1 ≤ c' ∧ c' ≤ k))
    ∧ (∀ (gr : GraphData) (k : Nat) (seed : Coloring) (maxIter tenure : Nat) (g : RNG),
        1 ≤ k → (∀ p ∈ seed, 1 ≤ p.2) →
        ∀ p ∈ (runTabuCol gr k seed maxIter tenure g).1.1, 1 ≤ p.2 ∧ p.2 ≤ k) := by
  constructor
  · intro k S g v
    exact ⟨fun c hc hck => fixColors_keep k S g v c hc hck,
      fun hc => fixColors_none k S g v hc,
      fun c hk hc hkc => fixColors_replace k hk S g v c hc hkc⟩
  · intro gr k seed maxIter tenure g hk hseed p hp
    revert p hp
    unfold runTabuCol at *
    rcases hfc : fixColors k seed g with ⟨S1, g1⟩
    simp only
    have hvals : ∀ p ∈ S1, 1 ≤ p.2 ∧ p.2 ≤ k := by
      intro p hp
      have := fixColors_vals k hk seed g hseed p (by rw [hfc]; exact hp)
      exact this
    have hinv0 : TabuRangeInv k
        ⟨S1, S1, (countConflicts S1 gr.adj : Int), (countConflicts S1 gr.adj : Int),
         fun _ _ => 0, g1⟩ := ⟨hvals, hvals⟩
    have hfin := tabuLoop_inv gr k tenure (TabuRangeInv k)
      (fun iter st => tabuIter_range_inv gr k tenure iter st hk) maxIter 1 _ hinv0
    exact hfin.2

/-- Witness for the amended C8: a kept in-range color, a kept missing
entry, a replaced over-range color, and a fully in-range returned
coloring at concrete inputs. -/
theorem C8_fix_amended_witness :
    colorOf (fixColors 2 [(1, 2)] exRng).1 1 = some 2
    ∧ colorOf (fixColors 2 [(2, 0)] exRng).1 5 = none
    ∧ (∃ c', colorOf (fixColors 1 [(1, 5)] exRng).1 1 = some c' ∧ 1 ≤ c' ∧ c' ≤ 1)
    ∧ (1 ≤ ((runTabuCol exGraph1 1 [(1, 5)] 3 2 exRng).1.1.headD (0, 0)).2
        ∧ ((runTabuCol exGraph1 1 [(1, 5)] 3 2 exRng).1.1.headD (0, 0)).2 ≤ 1) :=
  ⟨(C8_fix_amended.1 2 [(1, 2)] exRng 1).1 2 (by decide) (by decide),
   (C8_fix_amended.1 2 [(2, 0)] exRng 5).2.1 (by decide),
   (C8_fix_amended.1 1 [(1, 5)] exRng 1).2.2 5 (by decide) (by decide) (by decide),
   C8_fix_amended.2 exGraph1 1 [(1, 5)] 3 2 exRng (by decide) (by decide)
     ((runTabuCol exGraph1 1 [(1, 5)] 3 2 exRng).1.1.headD (0, 0)) (by decide)⟩

end ClaimC8

theorem gpxfold_spec (un : List Nat) :
    ∀ (es : List (Nat × List Nat)) (acc : Int × Int),
      (es.foldl (fun acc e =>
          if ((e.2.filter (fun nid => un.contains nid)).length : Int) > acc.2
          then ((e.1 : Int), ((e.2.filter (fun nid => un.contains nid)).length : Int))
          else acc) acc = acc
        ∧ ∀ e ∈ es, ((e.2.filter (fun nid => un.contains nid)).length : Int) ≤ acc.2)
      ∨ (∃ pre w post, es = pre ++ w :: post
          ∧ es.foldl (fun acc e =>
              if ((e.2.filter (fun nid => un.contains nid)).length : Int) > acc.2
              then ((e.1 : Int), ((e.2.filter (fun nid => un.contains nid)).length : Int))
              else acc) acc
            = ((w.1 : Int), ((w.2.filter (fun nid => un.contains nid)).length : Int))
          ∧ acc.2 < ((w.2.filter (fun nid => un.contains nid)).length : Int)
          ∧ (∀ e' ∈ pre, ((e'.2.filter (fun nid => un.contains nid)).length : Int)
              < ((w.2.filter (fun nid => un.contains nid)).length : Int))
          ∧ (∀ e' ∈ post, ((e'.2.filter (fun nid => un.contains nid)).length : Int)
              ≤ ((w.2.filter (fun nid => un.contains nid)).length : Int))) := by
  intro es
  induction es with
  | nil =>
    intro acc
    left
    exact ⟨rfl, by simp⟩
  | cons e0 t ih =>
    intro acc
    rw [List.foldl_cons]
    by_cases hgt : ((e0.2.filter (fun nid => un.contains nid)).length : Int) > acc.2
    · rw [if_pos hgt]
      rcases ih ((e0.1 : Int), ((e0.2.filter (fun nid => un.contains nid)).length : Int))
        with ⟨heq, hall⟩ | ⟨pre, w, post, hsplit, heq, hlt, hpre, hpost⟩
      · right
        refine ⟨[], e0, t, rfl, heq, hgt, ?_, ?_⟩
        · intro e' he'
          cases he'
        · intro e' he'
          exact hall e' he'
      · right
        refine ⟨e0 :: pre, w, post, by rw [hsplit]; rfl, heq, ?_, ?_, hpost⟩
        · exact lt_trans hgt hlt
        · intro e' he'
          rcases List.mem_cons.mp he' with h | h
          · rw [h]
            exact hlt
          · exact hpre e' h
    · rw [if_neg hgt]
      rcases ih acc with ⟨heq, hall⟩ | ⟨pre, w, post, hsplit, heq, hlt, hpre, hpost⟩
      · left
        refine ⟨heq, ?_⟩
        intro e' he'
        rcases List.mem_cons.mp he' with h | h
        · rw [h]
          omega
        · exact hall e' h
      · right
        refine ⟨e0 :: pre, w, post, by rw [hsplit]; rfl, heq, hlt, ?_, hpost⟩
        intro e' he'
        rcases List.mem_cons.mp he' with h | h
        · rw [h]
          omega
        · exact hpre e' h

theorem find?_append_of_false {α : Type} (p : α → Bool) :
    ∀ (l1 l2 : List α), (∀ x ∈ l1, p x = false) →
      (l1 ++ l2).find? p = l2.find? p := by
  intro l1
  induction l1 with
  | nil => intro l2 _; rfl
  | cons a t ih =>
    intro l2 hf
    rw [List.cons_append, List.find?_cons_of_neg]
    · exact ih l2 (fun x hx => hf x (List.mem_cons_of_mem a hx))
    · rw [hf a (List.mem_cons_self a t)]
      simp

theorem classUnassignedCount_of_mem (es : List (Nat × List Nat)) (un : List Nat)
    (hnodup : (adjKeys es).Nodup) {e : Nat × List Nat} (he : e ∈ es) :
    classUnassignedCount es un e.1 = (e.2.filter (fun nid => un.contains nid)).length := by
  unfold classUnassignedCount
  rw [lookup_of_mem_nodup hnodup he]
  rfl

theorem gpxPickClass_eq_spec (es : List (Nat × List Nat)) (un : List Nat)
    (hnodup : (adjKeys es).Nodup) (hne : es ≠ []) :
    ∃ bc : Nat, specPickColor es un = some bc
      ∧ (gpxPickClass es un).1 = (bc : Int) ∧ (gpxPickClass es un).1 ≠ -1 := by
  have hfold : (gpxPickClass es un)
      = es.foldl (fun acc e =>
          if ((e.2.filter (fun nid => un.contains nid)).length : Int) > acc.2
          then ((e.1 : Int), ((e.2.filter (fun nid => un.contains nid)).length : Int))
          else acc) ((-1 : Int), (-1 : Int)) := rfl
  rcases gpxfold_spec un es ((-1 : Int), (-1 : Int)) with
    ⟨heq, hall⟩ | ⟨pre, w, post, hsplit, heq, hlt, hpre, hpost⟩
  · exfalso
    obtain ⟨e0, t, he0⟩ := List.exists_cons_of_ne_nil hne
    have := hall e0 (by rw [he0]; exact List.mem_cons_self _ _)
    simp only at this
    omega
  · have hwmem : w ∈ es := by
      rw [hsplit]
      exact List.mem_append_right _ (List.mem_cons_self _ _)
    have hcntw : classUnassignedCount es un w.1
        = (w.2.filter (fun nid => un.contains nid)).length :=
      classUnassignedCount_of_mem es un hnodup hwmem
    have hub : ∀ c' ∈ es.map Prod.fst,
        classUnassignedCount es un c' ≤ classUnassignedCount es un w.1 := by
      intro c' hc'
      obtain ⟨e', he', he'1⟩ := List.mem_map.mp hc'
      rw [← he'1, classUnassignedCount_of_mem es un hnodup he', hcntw]
      rw [hsplit] at he'
      rcases List.mem_append.mp he' with h | h
      · have := hpre e' h
        omega
      · rcases List.mem_cons.mp h with h2 | h2
        · rw [h2]
        · have := hpost e' h2
          omega
    have hpfalse : ∀ c ∈ pre.map Prod.fst,
        (fun c => decide (∀ c' ∈ es.map Prod.fst,
          classUnassignedCount es un c' ≤ classUnassignedCount es un c)) c = false := by
      intro c hc
      obtain ⟨e', he', he'1⟩ := List.mem_map.mp hc
      simp only [decide_eq_false_iff_not]
      intro hforall
      have hwkey : w.1 ∈ es.map Prod.fst := List.mem_map_of_mem Prod.fst hwmem
      have h1 := hforall w.1 hwkey
      have he'es : e' ∈ es := by
        rw [hsplit]
        exact List.mem_append_left _ he'
      rw [← he'1, hcntw, classUnassignedCount_of_mem es un hnodup he'es] at h1
      have h2 := hpre e' he'
      omega
    have hkeys : es.map Prod.fst = pre.map Prod.fst ++ w.1 :: post.map Prod.fst := by
      rw [hsplit]
      simp
    have hfold1 : (gpxPickClass es un).1 = (w.1 : Int) := by
      rw [hfold, heq]
    refine ⟨w.1, ?_, hfold1, by rw [hfold1]; omega⟩
    unfold specPickColor
    set p : Nat → Bool := fun c => decide (∀ c' ∈ es.map Prod.fst,
      classUnassignedCount es un c' ≤ classUnassignedCount es un c) with hp
    rw [hkeys]
    rw [find?_append_of_false p (pre.map Prod.fst) (w.1 :: post.map Prod.fst) hpfalse]
    apply List.find?_cons_of_pos
    show p w.1 = true
    rw [hp]
    simp only [decide_eq_true_eq]
    exact hub

/-- When the source-level pick succeeds, the source slot agrees with the
spec-modelled slot: both color the same class's unassigned members. -/
theorem gpxAssignSlot_eq_spec (classes : List (Nat × List Nat)) (c : Nat)
    (child : Coloring) (un : List Nat)
    (hnodup : (adjKeys classes).Nodup) (hne : classes ≠ []) :
    gpxAssignSlot classes c child un = gpxSpecAssignSlot classes c child un := by
  obtain ⟨bc, hspec, hpick, hpickne⟩ := gpxPickClass_eq_spec classes un hnodup hne
  have htn : (gpxPickClass classes un).1.toNat = bc := by
    rw [hpick]
    exact Int.toNat_natCast bc
  unfold gpxAssignSlot gpxSpecAssignSlot
  rw [hspec, if_pos hpickne, htn]

/-- The keys of `getClasses` are exactly the colors `1..k`. -/
theorem getClasses_keys (S : Coloring) (k : Nat) :
    adjKeys (getClasses S k) = List.range' 1 k := by
  unfold getClasses adjKeys
  rw [List.map_map]
  have hid : (Prod.fst ∘ fun c => (c, ((S.filter (fun p => p.2 == c)).map Prod.fst)))
      = (id : Nat → Nat) := rfl
  rw [hid, List.map_id]

/-- The keys of `getClasses` are pairwise distinct. -/
theorem getClasses_keys_nodup (S : Coloring) (k : Nat) :
    (adjKeys (getClasses S k)).Nodup := by
  rw [getClasses_keys]
  exact List.nodup_range' 1 k

/-- `getClasses` is nonempty whenever `k ≥ 1`. -/
theorem getClasses_ne_nil (S : Coloring) (k : Nat) (hk : 1 ≤ k) :
    getClasses S k ≠ [] := by
  intro h
  have := congrArg List.length h
  rw [getClasses] at this
  simp at this
  omega

/-- The source slot loop agrees with the spec-modelled slot loop. -/
theorem gpxSlotsAux_eq_spec (classes1 classes2 : List (Nat × List Nat))
    (h1n : (adjKeys classes1).Nodup) (h1e : classes1 ≠ [])
    (h2n : (adjKeys classes2).Nodup) (h2e : classes2 ≠ []) :
    ∀ (slots : List Nat) (cp : Nat) (child : Coloring) (un : List Nat),
    gpxSlotsAux classes1 classes2 slots cp child un
      = gpxSpecSlotsAux classes1 classes2 slots cp child un := by
  intro slots
  induction slots with
  | nil => intro cp child un; rfl
  | cons c rest ih =>
    intro cp child un
    show gpxSlotsAux classes1 classes2 (c :: rest) cp child un
      = gpxSpecSlotsAux classes1 classes2 (c :: rest) cp child un
    unfold gpxSlotsAux gpxSpecSlotsAux
    by_cases hcp : cp = 1
    · simp only [if_pos hcp]
      rw [gpxAssignSlot_eq_spec classes1 c child un h1n h1e]
      exact ih 2 _ _
    · simp only [if_neg hcp]
      rw [gpxAssignSlot_eq_spec classes2 c child un h2n h2e]
      exact ih 1 _ _

/-- The source crossover agrees with the spec-modelled crossover for `k ≥ 1`. -/
theorem gpxCrossover_eq_spec (p1 p2 : Coloring) (k : Nat) (g : GraphData) (g0 : RNG)
    (hk : 1 ≤ k) :
    gpxCrossover p1 p2 k g g0 = gpxSpecCrossover p1 p2 k g g0 := by
  unfold gpxCrossover gpxSpecCrossover
  rw [gpxSlotsAux_eq_spec (getClasses p1 k) (getClasses p2 k)
    (getClasses_keys_nodup p1 k) (getClasses_ne_nil p1 k hk)
    (getClasses_keys_nodup p2 k) (getClasses_ne_nil p2 k hk)]

/-- A fold of `setColor · · c` leaves vertices outside the list untouched. -/
theorem colorOf_foldl_setColor_not_mem (c : Nat) :
    ∀ (l : List Nat) (child : Coloring) (v : Nat), v ∉ l →
    colorOf (l.foldl (fun ch nid => setColor ch nid c) child) v = colorOf child v
  | [], _, _, _ => rfl
  | n :: t, child, v, h => by
    have hvt : v ∉ t := fun ht => h (List.mem_cons_of_mem _ ht)
    have hvn : v ≠ n := fun he => h (he ▸ List.mem_cons_self _ _)
    rw [List.foldl_cons, colorOf_foldl_setColor_not_mem c t _ v hvt,
      colorOf_setColor_ne child n c v hvn]

/-- A fold of `setColor · · c` colors every vertex of the list with `c`. -/
theorem colorOf_foldl_setColor_mem (c : Nat) :
    ∀ (l : List Nat) (child : Coloring) (v : Nat), v ∈ l →
    colorOf (l.foldl (fun ch nid => setColor ch nid c) child) v = some c
  | n :: t, child, v, h => by
    rw [List.foldl_cons]
    by_cases hvt : v ∈ t
    · exact colorOf_foldl_setColor_mem c t _ v hvt
    · have hvn : v = n := by
        rcases List.mem_cons.mp h with h1 | h1
        · exact h1
        · exact absurd h1 hvt
      rw [colorOf_foldl_setColor_not_mem c t _ v hvt, hvn, colorOf_setColor_self]

/-- One slot preserves the invariant "still unassigned, or colored in
`1..k`" at every vertex (the slot color `c` lies in `1..k`). -/
theorem gpxAssignSlot_inv (classes : List (Nat × List Nat)) (c k : Nat)
    (child : Coloring) (un : List Nat) (v : Nat) (hc1 : 1 ≤ c) (hck : c ≤ k)
    (h : v ∈ un ∨ ∃ c0, colorOf child v = some c0 ∧ 1 ≤ c0 ∧ c0 ≤ k) :
    v ∈ (gpxAssignSlot classes c child un).2
      ∨ ∃ c0, colorOf (gpxAssignSlot classes c child un).1 v = some c0
          ∧ 1 ≤ c0 ∧ c0 ≤ k := by
  unfold gpxAssignSlot
  by_cases hpick : (gpxPickClass classes un).1 ≠ -1
  · rw [if_pos hpick]
    set classNodes := (classes.lookup (gpxPickClass classes un).1.toNat).getD []
      with hcn
    set members := classNodes.filter (fun nid => un.contains nid) with hm
    by_cases hvm : v ∈ members
    · right
      exact ⟨c, colorOf_foldl_setColor_mem c members child v hvm, hc1, hck⟩
    · rcases h with hun | ⟨c0, hcol, h1, h2⟩
      · by_cases hvc : v ∈ classNodes
        · exfalso
          apply hvm
          rw [hm]
          apply List.mem_filter.mpr
          exact ⟨hvc, by simp [hun]⟩
        · left
          apply List.mem_filter.mpr
          refine ⟨hun, ?_⟩
          simp [hvc]
      · right
        refine ⟨c0, ?_, h1, h2⟩
        rw [colorOf_foldl_setColor_not_mem c members child v hvm]
        exact hcol
  · rw [if_neg hpick]
    exact h

/-- The slot loop preserves the same invariant, provided every slot color
lies in `1..k`. -/
theorem gpxSlotsAux_inv (classes1 classes2 : List (Nat × List Nat)) (k v : Nat) :
    ∀ (slots : List Nat) (cp : Nat) (child : Coloring) (un : List Nat),
    (∀ c ∈ slots, 1 ≤ c ∧ c ≤ k) →
    (v ∈ un ∨ ∃ c0, colorOf child v = some c0 ∧ 1 ≤ c0 ∧ c0 ≤ k) →
    (v ∈ (gpxSlotsAux classes1 classes2 slots cp child un).2
      ∨ ∃ c0, colorOf (gpxSlotsAux classes1 classes2 slots cp child un).1 v = some c0
          ∧ 1 ≤ c0 ∧ c0 ≤ k) := by
  intro slots
  induction slots with
  | nil => intro cp child un _ h; exact h
  | cons c rest ih =>
    intro cp child un hslots h
    have hc := hslots c (List.mem_cons_self _ _)
    have hrest : ∀ c' ∈ rest, 1 ≤ c' ∧ c' ≤ k :=
      fun c' hc' => hslots c' (List.mem_cons_of_mem _ hc')
    show (v ∈ (gpxSlotsAux classes1 classes2 (c :: rest) cp child un).2
      ∨ ∃ c0, colorOf (gpxSlotsAux classes1 classes2 (c :: rest) cp child un).1 v = some c0
          ∧ 1 ≤ c0 ∧ c0 ≤ k)
    unfold gpxSlotsAux
    exact ih _ _ _ hrest
      (gpxAssignSlot_inv (if cp = 1 then classes1 else classes2) c k child un v
        hc.1 hc.2 h)

/-- The final random-fill fold: every vertex of the list ends with a color
in `1..k` (for `k ≥ 1`), and every other vertex keeps its color. -/
theorem gpxFill_spec (k : Nat) (hk : 1 ≤ k) :
    ∀ (un : List Nat) (acc : Coloring × RNG) (v : Nat),
    (v ∈ un → ∃ c, colorOf (un.foldl (fun (a : Coloring × RNG) nid =>
        (setColor a.1 nid ((randBelow k a.2).1 + 1), (randBelow k a.2).2)) acc).1 v
        = some c ∧ 1 ≤ c ∧ c ≤ k)
    ∧ (v ∉ un → colorOf (un.foldl (fun (a : Coloring × RNG) nid =>
        (setColor a.1 nid ((randBelow k a.2).1 + 1), (randBelow k a.2).2)) acc).1 v
        = colorOf acc.1 v)
  | [], _, v => ⟨fun h => absurd h (List.not_mem_nil v), fun _ => rfl⟩
  | n :: t, acc, v => by
    rw [List.foldl_cons]
    constructor
    · intro hv
      by_cases hvt : v ∈ t
      · exact (gpxFill_spec k hk t _ v).1 hvt
      · have hvn : v = n := by
          rcases List.mem_cons.mp hv with h1 | h1
          · exact h1
          · exact absurd h1 hvt
        refine ⟨(randBelow k acc.2).1 + 1, ?_, by omega, ?_⟩
        · rw [(gpxFill_spec k hk t _ v).2 hvt, hvn]
          exact colorOf_setColor_self acc.1 n ((randBelow k acc.2).1 + 1)
        · have := randBelow_lt k acc.2 hk
          omega
    · intro hv
      have hvt : v ∉ t := fun h => hv (List.mem_cons_of_mem _ h)
      have hvn : v ≠ n := fun h => hv (h ▸ List.mem_cons_self _ _)
      rw [(gpxFill_spec k hk t _ v).2 hvt]
      exact colorOf_setColor_ne acc.1 n ((randBelow k acc.2).1 + 1) v hvn

/-- Every slot color produced by `List.range' 1 k` lies in `1..k`. -/
theorem range'_slots_bounds (k : Nat) : ∀ c ∈ List.range' 1 k, 1 ≤ c ∧ c ≤ k := by
  intro c hc
  rw [List.mem_range'_1] at hc
  omega

/-- GPX totality: for `k ≥ 1` the child colors every vertex of the graph
with a color in `1..k`. -/
theorem gpxCrossover_total (p1 p2 : Coloring) (k : Nat) (g : GraphData) (g0 : RNG)
    (hk : 1 ≤ k) (v : Nat) (hv : v ∈ g.nodes) :
    ∃ c, colorOf (gpxCrossover p1 p2 k g g0).1 v = some c ∧ 1 ≤ c ∧ c ≤ k := by
  have hinv := gpxSlotsAux_inv (getClasses p1 k) (getClasses p2 k) k v
    (List.range' 1 k) 1 (g.nodes.map (fun w => (w, 0))) g.nodes
    (range'_slots_bounds k) (Or.inl hv)
  show ∃ c, colorOf (gpxCrossover p1 p2 k g g0).1 v = some c ∧ 1 ≤ c ∧ c ≤ k
  unfold gpxCrossover
  by_cases hvu : v ∈ (gpxSlotsAux (getClasses p1 k) (getClasses p2 k)
      (List.range' 1 k) 1 (g.nodes.map (fun w => (w, 0))) g.nodes).2
  · exact (gpxFill_spec k hk _ _ v).1 hvu
  · rcases hinv with hin | ⟨c0, hcol, h1, h2⟩
    · exact absurd hin hvu
    · refine ⟨c0, ?_, h1, h2⟩
      rw [(gpxFill_spec k hk _ _ v).2 hvu]
      exact hcol

/-- C7: for every `k ≥ 1` and any two parent colorings that are total over
the graph's vertices with values in `1..k`, `gpxCrossover` coincides with
the spec-modelled crossover (slots `c = 1..k` alternating the source
parent starting from parent 1, each slot coloring the unassigned vertices
of the class with the largest unassigned intersection, ties broken by
lowest color index, remaining vertices filled with random colors in
`1..k`), and the resulting child assigns every vertex a color in `1..k`. -/
theorem C7_gpx_crossover (p1 p2 : Coloring) (k : Nat) (g : GraphData) (g0 : RNG)
    (hk : 1 ≤ k)
    (hp1 : ∀ v ∈ g.nodes, ∃ c, colorOf p1 v = some c ∧ 1 ≤ c ∧ c ≤ k)
    (hp2 : ∀ v ∈ g.nodes, ∃ c, colorOf p2 v = some c ∧ 1 ≤ c ∧ c ≤ k) :
    gpxCrossover p1 p2 k g g0 = gpxSpecCrossover p1 p2 k g g0
    ∧ ∀ v ∈ g.nodes, ∃ c,
        colorOf (gpxCrossover p1 p2 k g g0).1 v = some c ∧ 1 ≤ c ∧ c ≤ k :=
  ⟨gpxCrossover_eq_spec p1 p2 k g g0 hk,
   fun v hv => gpxCrossover_total p1 p2 k g g0 hk v hv⟩

/-- A concrete instance of the crossover correspondence: the one-vertex
graph with both parents coloring vertex 1 with color 1 and `k = 1`. -/
theorem C7_gpx_crossover_witness :
    gpxCrossover [(1, 1)] [(1, 1)] 1 exGraph1 exRng
      = gpxSpecCrossover [(1, 1)] [(1, 1)] 1 exGraph1 exRng
    ∧ ∀ v ∈ exGraph1.nodes, ∃ c,
        colorOf (gpxCrossover [(1, 1)] [(1, 1)] 1 exGraph1 exRng).1 v = some c
        ∧ 1 ≤ c ∧ c ≤ 1 :=
  C7_gpx_crossover [(1, 1)] [(1, 1)] 1 exGraph1 exRng (by decide)
    (fun v hv => ⟨1, by
      have hv1 : v = 1 := by simpa [exGraph1] using hv
      subst hv1
      exact ⟨rfl, by decide⟩⟩)
    (fun v hv => ⟨1, by
      have hv1 : v = 1 := by simpa [exGraph1] using hv
      subst hv1
      exact ⟨rfl, by decide⟩⟩)
